import Mathlib

/-!
ParabolaWhat: the answer-evaluation engine.

Shallow embedding of `src/script.js` (question generation, equation parsing,
stroke analysis and scoring) together with the properties checked against it.

Conventions of the embedding.

* A JavaScript string is a `List Char`.
* A JavaScript number is `JSNum`: `NaN`, an infinity, or a rational value.
  `parseFloat` and the arithmetic of the free-text scoring round to the
  nearest IEEE double (`roundDouble`); the question coefficients and the
  stroke coordinates are taken as exact values, and every value the generator
  emits (`±0.5`, `±1`, `±2` and the integers in `[-4, 4]`) is exactly
  representable.
* `Math.random()` is an explicit argument `r : ℚ` with `0 ≤ r < 1`.
-/

namespace ParabolaWhat

/-! ## Numbers -/

/-- A JavaScript number: `NaN`, a finite value, or an infinity. -/
inductive JSNum where
  | nan : JSNum
  | num (q : ℚ) : JSNum
  | inf (negative : Bool) : JSNum
  deriving DecidableEq

/-- The number of binary digits of `n`, counted by halving (`fuel` bounds the
number of steps). -/
def bitLength : ℕ → ℕ → ℕ → ℕ
  | 0, _, acc => acc
  | fuel + 1, n, acc => if n = 0 then acc else bitLength fuel (n / 2) (acc + 1)

/-- The integer `floor(log2 n)` for positive `n`. -/
def log2Nat (n : ℕ) : ℕ := bitLength n n 0 - 1

/-- The integer `floor(log2 (n / d))`, for positive `n` and `d`. -/
def floorLog2 (n d : ℕ) : ℤ :=
  let k : ℤ := (log2Nat n : ℤ) - (log2Nat d : ℤ)
  let ge : Bool :=
    if 0 ≤ k then decide (d * 2 ^ k.toNat ≤ n) else decide (d ≤ n * 2 ^ (-k).toNat)
  if ge then k else k - 1

/-- The integer nearest to `n / d`, a tie going to the even one. -/
def roundHalfEven (n d : ℕ) : ℕ :=
  let qt := n / d
  let rm := n % d
  if 2 * rm < d then qt
  else if d < 2 * rm then qt + 1
  else if qt % 2 = 0 then qt else qt + 1

/-- The IEEE double nearest to the rational `q` (round to nearest, ties to
even): 53 significant bits, exponents down to the subnormal range, and an
infinity when the rounded magnitude reaches `2^1024`. -/
def roundDouble (q : ℚ) : JSNum :=
  if q = 0 then JSNum.num 0
  else
    let n := q.num.natAbs
    let d := q.den
    let s : ℤ := max (floorLog2 n d) (-1022) - 52
    let r : ℕ :=
      if 0 ≤ s then roundHalfEven n (d * 2 ^ s.toNat)
      else roundHalfEven (n * 2 ^ (-s).toNat) d
    let mag : ℚ :=
      if 0 ≤ s then ((r * 2 ^ s.toNat : ℕ) : ℚ) else mkRat r (2 ^ (-s).toNat)
    if ((2 ^ 1024 : ℕ) : ℚ) ≤ mag then JSNum.inf (decide (q < 0))
    else JSNum.num (if q < 0 then -mag else mag)

/-- `Math.sign` on a rational: `1`, `-1` or `0`. -/
def sign (q : ℚ) : ℤ :=
  if 0 < q then 1 else if q < 0 then -1 else 0

/-! ## Strings and the three regular expressions of `parseEquation` -/

/-- `String.prototype.toLowerCase`, on ASCII letters (the only letters the
patterns below look at are `x` and `y`). -/
def toLowerCase (s : List Char) : List Char := s.map Char.toLower

/-- The character class `\s` of JavaScript regular expressions. -/
def isJSSpace (c : Char) : Bool :=
  let n := c.toNat
  n == 9 || n == 10 || n == 11 || n == 12 || n == 13 || n == 32 || n == 160 ||
  n == 5760 || (8192 ≤ n && n ≤ 8202) || n == 8232 || n == 8233 || n == 8239 ||
  n == 8287 || n == 12288 || n == 65279

/-- `s.replace(/\s+/g, '')`: every whitespace character is dropped. -/
def stripSpaces (s : List Char) : List Char := s.filter (fun c => !isJSSpace c)

/-- `s.replace(pat, '')` with a string pattern: the first occurrence of `pat`
is removed, the text is unchanged when `pat` does not occur. -/
def replaceFirst (pat : List Char) : List Char → List Char
  | [] => []
  | c :: t =>
    if pat.isPrefixOf (c :: t) then (c :: t).drop pat.length
    else c :: replaceFirst pat t

/-- The class `[+-]`. -/
def isSign (c : Char) : Bool := c == '+' || c == '-'

/-- The class `[\d\.]`. -/
def isNumChar (c : Char) : Bool := c.isDigit || c == '.'

/-- The `[+-]?` part of a pattern at the head of `s`: the sign taken (possibly
empty) and the text after it. -/
def takeSign : List Char → List Char × List Char
  | [] => ([], [])
  | c :: t => if isSign c then ([c], t) else ([], c :: t)

/-- The group `([+-]?[\d\.]*)` at the head of `s`: the captured text and the
text after it. The classes `[+-]`, `[\d\.]` and the letter `x` that follows
the group in both patterns are disjoint, so the greedy choice is the only one
that can lead to a match. -/
def coeffPrefix (s : List Char) : List Char × List Char :=
  let p := takeSign s
  (p.1 ++ p.2.takeWhile isNumChar, p.2.dropWhile isNumChar)

/-- The result of `String.prototype.match` with a one-group pattern: the
captured group `m[1]` and the whole matched text `m[0]`. -/
structure Match where
  group : List Char
  whole : List Char
  deriving DecidableEq

/-- The pattern `/([+-]?[\d\.]*)x[\^²]?2/` anchored at the head of `s`. -/
def matchQuadAt (s : List Char) : Option Match :=
  let p := coeffPrefix s
  match p.2 with
  | 'x' :: '2' :: _ => some ⟨p.1, p.1 ++ ['x', '2']⟩
  | 'x' :: c :: '2' :: _ =>
    if c == '^' || c == '²' then some ⟨p.1, p.1 ++ ['x', c, '2']⟩ else none
  | _ => none

/-- The pattern `/([+-]?[\d\.]*)x/` anchored at the head of `s`. -/
def matchLinAt (s : List Char) : Option Match :=
  let p := coeffPrefix s
  match p.2 with
  | 'x' :: _ => some ⟨p.1, p.1 ++ ['x']⟩
  | _ => none

/-- The pattern `/([+-]?[\d\.]+)/` anchored at the head of `s`. -/
def matchConstAt (s : List Char) : Option Match :=
  let p := takeSign s
  let ds := p.2.takeWhile isNumChar
  if ds.isEmpty then none else some ⟨p.1 ++ ds, p.1 ++ ds⟩

/-- Unanchored search, as `s.match(re)` performs it: the match at the
leftmost position where the anchored pattern succeeds. -/
def search (matchAt : List Char → Option Match) : List Char → Option Match
  | [] => matchAt []
  | c :: t =>
    match matchAt (c :: t) with
    | some m => some m
    | none => search matchAt t

/-- Value of a run of decimal digits. -/
def digitsVal (ds : List Char) : ℕ :=
  ds.foldl (fun n c => 10 * n + (c.toNat - 48)) 0

/-- `parseFloat` on the texts `parseEquation` hands to it (a regex capture
over `+`, `-`, `.` and digits, so neither an exponent, `Infinity` nor leading
blanks can occur): the longest prefix `[+-]? digits [. digits]` with at least
one digit is read and its decimal value rounded to the nearest double, `NaN`
is returned when there is none. -/
def parseFloat (s : List Char) : JSNum :=
  let p : Bool × List Char :=
    match s with
    | '-' :: t => (true, t)
    | '+' :: t => (false, t)
    | _ => (false, s)
  let ip := p.2.takeWhile Char.isDigit
  let fp : List Char :=
    match p.2.dropWhile Char.isDigit with
    | '.' :: t => t.takeWhile Char.isDigit
    | _ => []
  if ip.isEmpty && fp.isEmpty then JSNum.nan
  else
    let v : ℚ := mkRat (digitsVal (ip ++ fp)) (10 ^ fp.length)
    roundDouble (if p.1 then -v else v)

/-- The coefficient read from a captured group: an empty group or a bare sign
stands for `1` / `-1`, anything else goes through `parseFloat`. -/
def coeffOfGroup (val : List Char) : JSNum :=
  if val = [] ∨ val = ['+'] then JSNum.num 1
  else if val = ['-'] then JSNum.num (-1)
  else parseFloat val

/-- The object `{ a, b, c }` returned by `parseEquation`. -/
structure Parsed where
  a : JSNum
  b : JSNum
  c : JSNum
  deriving DecidableEq

/-- The first statement of `parseEquation`:
`input.toLowerCase().replace(/\s+/g, '').replace('y=', '')`. -/
def normalize (input : List Char) : List Char :=
  replaceFirst ['y', '='] (stripSpaces (toLowerCase input))

/-- The statement `if (m) temp = temp.replace(m[0], '')`. -/
def removeMatch (m : Option Match) (temp : List Char) : List Char :=
  match m with
  | some m => replaceFirst m.whole temp
  | none => temp

/-- `InputAnalyzer.parseEquation`. -/
def parseEquation (input : List Char) : Parsed :=
  let s := normalize input
  let matchA := search matchQuadAt s
  let a : JSNum :=
    match matchA with
    | some m => coeffOfGroup m.group
    | none => JSNum.num 0
  let temp := removeMatch matchA s
  let matchB := search matchLinAt temp
  let b : JSNum :=
    match matchB with
    | some m => coeffOfGroup m.group
    | none => JSNum.num 0
  let temp2 := removeMatch matchB temp
  let matchC := search matchConstAt temp2
  let c : JSNum :=
    match matchC with
    | some m => parseFloat m.group
    | none => JSNum.num 0
  ⟨a, b, c⟩

/-! ## Question generation -/

/-- The decimal digit `d` as a character. -/
def digitChar (d : ℕ) : Char := Char.ofNat (48 + d)

/-- Decimal digits of a natural number, most significant first (`fuel`
bounds the number of digits). -/
def natDigitsAux : ℕ → ℕ → List Char → List Char
  | 0, _, acc => acc
  | fuel + 1, n, acc =>
    if n < 10 then digitChar n :: acc
    else natDigitsAux fuel (n / 10) (digitChar (n % 10) :: acc)

/-- Decimal text of a natural number. -/
def natToString (n : ℕ) : List Char := natDigitsAux (n + 1) n []

/-- Digits after the decimal point of `r / d` (with `r < d`), at most `fuel`
of them. -/
def fracDigits : ℕ → ℕ → ℕ → List Char
  | 0, _, _ => []
  | fuel + 1, r, d =>
    if r = 0 then [] else digitChar (10 * r / d) :: fracDigits fuel (10 * r % d) d

/-- Number-to-string conversion of a template literal (`Number::toString`),
for the values whose decimal expansion is finite and short (which covers the
integers and halves the generator emits): sign, integer part and, when the
value is not an integer, a point and the fractional digits. -/
def numToString (q : ℚ) : List Char :=
  let n := q.num.natAbs
  let d := q.den
  (if q < 0 then ['-'] else []) ++ natToString (n / d) ++
    (if n % d = 0 then [] else '.' :: fracDigits 17 (n % d) d)

/-- `QuestionGenerator.formatEquation`. -/
def formatEquation (a b c : ℚ) : List Char :=
  let eq0 : List Char := []
  let eq1 : List Char :=
    if a = 1 then eq0 ++ "x²".toList
    else if a = -1 then eq0 ++ "-x²".toList
    else eq0 ++ (numToString a ++ "x²".toList)
  let eq2 : List Char :=
    if 0 < b then eq1 ++ (" + ".toList ++ (if b = 1 then [] else numToString b) ++ ['x'])
    else if b < 0 then
      eq1 ++ (" - ".toList ++ (if |b| = 1 then [] else numToString |b|) ++ ['x'])
    else eq1
  let eq3 : List Char :=
    if 0 < c then eq2 ++ (" + ".toList ++ numToString c)
    else if c < 0 then eq2 ++ (" - ".toList ++ numToString |c|)
    else eq2
  if eq3 = [] then ['0'] else eq3

/-- A question: the coefficients and the canonical text `equationDisplay`. -/
structure Question where
  a : ℚ
  b : ℚ
  c : ℚ
  equationDisplay : List Char
  deriving DecidableEq

/-- The object literal built by `generate` from its three coefficients. -/
def mkQuestion (a b c : ℚ) : Question := ⟨a, b, c, formatEquation a b c⟩

/-- `Utils.randomInt(min, max)` when `Math.random()` returns `r`. -/
def randomInt (min max : ℤ) (r : ℚ) : ℤ := ⌊r * ((max - min + 1 : ℤ) : ℚ)⌋ + min

/-- `Utils.pickRandom(arr)` when `Math.random()` returns `r`; `none` stands
for the `undefined` of an out-of-bounds read. -/
def pickRandom {α : Type} (arr : List α) (r : ℚ) : Option α :=
  arr[(⌊r * (arr.length : ℚ)⌋).toNat]?

/-- The array of leading coefficients in `generate`. -/
def aValues : List ℚ := [-2, -1, -1 / 2, 1 / 2, 1, 2]

/-- `QuestionGenerator.generate` when the three calls of `Math.random()`
return `r1`, `r2`, `r3` in this order. -/
def generate (r1 r2 r3 : ℚ) : Option Question :=
  (pickRandom aValues r1).map fun a =>
    mkQuestion a (randomInt (-4) 4 r2) (randomInt (-4) 4 r3)

/-! ## Multiple-choice rounds -/

/-- The swap `[arr[i], arr[j]] = [arr[j], arr[i]]`. -/
def swap {α : Type} (arr : List α) (i j : ℕ) : List α :=
  match arr[i]?, arr[j]? with
  | some x, some y => (arr.set i y).set j x
  | _, _ => arr

/-- The loop of `Utils.shuffle` from index `i` down to `1`; `rand k` is the
value of the `k`-th call of `Math.random()`. -/
def shuffleLoop {α : Type} (rand : ℕ → ℚ) : ℕ → ℕ → List α → List α
  | 0, _, arr => arr
  | i + 1, k, arr =>
    shuffleLoop rand i (k + 1) (swap arr (i + 1) (⌊rand k * ((i + 2 : ℕ) : ℚ)⌋).toNat)

/-- `Utils.shuffle`. -/
def shuffle {α : Type} (rand : ℕ → ℚ) (arr : List α) : List α :=
  shuffleLoop rand (arr.length - 1) 0 arr

/-- The distractor loop of `setupPickPlotMode`: `cands` are the successive
results of `QuestionGenerator.generate()`. A candidate is pushed when no
option has its three coefficients. `none` when the candidates run out before
the loop finishes. -/
def pickPlotLoop : List Question → List Question → Option (List Question)
  | [], options => if options.length < 4 then none else some options
  | d :: rest, options =>
    if options.length < 4 then
      if !(options.any fun o => decide (o.a = d.a ∧ o.b = d.b ∧ o.c = d.c)) then
        pickPlotLoop rest (options ++ [d])
      else pickPlotLoop rest options
    else some options

/-- The distractor loop of `setupPickEqMode`: a candidate is pushed when its
text differs from the text of the target `q`. -/
def pickEqLoop (q : Question) : List Question → List Question → Option (List Question)
  | [], options => if options.length < 4 then none else some options
  | d :: rest, options =>
    if options.length < 4 then
      if d.equationDisplay ≠ q.equationDisplay then pickEqLoop q rest (options ++ [d])
      else pickEqLoop q rest options
    else some options

/-- The option list of `setupPickPlotMode` for the target `q`. -/
def setupPickPlotMode (q : Question) (cands : List Question) (rand : ℕ → ℚ) :
    Option (List Question) :=
  (pickPlotLoop cands [q]).map (shuffle rand)

/-- The option list of `setupPickEqMode` for the target `q`. -/
def setupPickEqMode (q : Question) (cands : List Question) (rand : ℕ → ℚ) :
    Option (List Question) :=
  (pickEqLoop q cands [q]).map (shuffle rand)

/-- The verdict `isCorrect` of `checkChoice`. -/
def checkChoice (selected correct : Question) : Bool :=
  decide (selected.equationDisplay = correct.equationDisplay)

/-! ## Free-text scoring -/

/-- The persisted session statistics `this.stats`. -/
structure Stats where
  totalScore : ℤ
  attempts : ℤ
  correct : ℤ
  deriving DecidableEq

/-- The effect of `showPoints(points)` on the statistics. -/
def showPoints (st : Stats) (points : ℤ) : Stats :=
  { st with totalScore := st.totalScore + points }

/-- A call `showFeedback(isCorrect, messageOrErrors)`. -/
structure Feedback where
  isCorrect : Bool
  messages : List (List Char)
  deriving DecidableEq

/-- The difference `u - c` in double arithmetic, `c` being finite. -/
def JSNum.subRat (u : JSNum) (c : ℚ) : JSNum :=
  match u with
  | JSNum.nan => JSNum.nan
  | JSNum.num v => roundDouble (v - c)
  | JSNum.inf s => JSNum.inf s

/-- `Math.abs(d) < t`; a comparison with `NaN` is false. -/
def JSNum.absLt (d t : JSNum) : Bool :=
  match d, t with
  | JSNum.num x, JSNum.num y => decide (|x| < y)
  | JSNum.num _, JSNum.inf false => true
  | _, _ => false

/-- `Math.abs(u - c) < tol`, where `tol` is the value written in the source
(the literal `0.01` is the double nearest to `1/100`). -/
def JSNum.absSubLt (u : JSNum) (c tol : ℚ) : Bool :=
  (u.subRat c).absLt (roundDouble tol)

/-- `Math.sign(u) === Math.sign(c)`; `NaN` is equal to nothing. -/
def JSNum.signEq (u : JSNum) (c : ℚ) : Bool :=
  match u with
  | JSNum.nan => false
  | JSNum.num v => decide (sign v = sign c)
  | JSNum.inf s => decide ((if s then -1 else 1) = sign c)

/-- The local variables `score`, `maxScore`, `errors` of `checkTypeAnswer`. -/
structure Scoring where
  score : ℤ
  maxScore : ℤ
  errors : List (List Char)
  deriving DecidableEq

/-- The message pushed for a coefficient with the right sign. -/
def msgSign (name : List Char) : List Char :=
  "Coefficiente ".toList ++ name ++ " errato. (Segno corretto)".toList

/-- The message pushed for a wrong coefficient, with the correct value. -/
def msgValue (name : List Char) (c : ℚ) : List Char :=
  "Coefficiente ".toList ++ name ++ " errato. (Corretto: ".toList ++ numToString c ++ [')']

/-- The helper `checkCoeff(name, userVal, correctVal)` of `checkTypeAnswer`,
as a transformer of the local variables; `userVal = none` is `null`. -/
def checkCoeff (acc : Scoring) (name : List Char) (userVal : Option JSNum)
    (correctVal : ℚ) : Scoring :=
  let u : JSNum :=
    match userVal with
    | some v => v
    | none => JSNum.num 0
  let c := correctVal
  let acc1 : Scoring := { acc with maxScore := acc.maxScore + 3 }
  if u.absSubLt c (1 / 100) then { acc1 with score := acc1.score + 3 }
  else if u.signEq c ∧ u ≠ JSNum.num 0 ∧ c ≠ 0 then
    { acc1 with score := acc1.score + 1, errors := acc1.errors ++ [msgSign name] }
  else { acc1 with errors := acc1.errors ++ [msgValue name c] }

/-- The name of the quadratic term in the messages. -/
def nameA : List Char := "a (x²)".toList

/-- The name of the linear term in the messages. -/
def nameB : List Char := "b (x)".toList

/-- The name of the constant term in the messages. -/
def nameC : List Char := "c (costante)".toList

/-- The three calls of `checkCoeff` in `checkTypeAnswer`, from the initial
`score = 0`, `maxScore = 0`, `errors = []`. -/
def scoreCoeffs (parsed : Parsed) (q : Question) : Scoring :=
  let s0 : Scoring := ⟨0, 0, []⟩
  let s1 := checkCoeff s0 nameA (some parsed.a) q.a
  let s2 := checkCoeff s1 nameB (some parsed.b) q.b
  checkCoeff s2 nameC (some parsed.c) q.c

/-- What `checkTypeAnswer` leaves behind: the statistics, the scoring
variables after the three checks, and the feedback shown. -/
structure TypeResult where
  stats : Stats
  scoring : Scoring
  feedback : Feedback
  deriving DecidableEq

/-- `QuizEngine.checkTypeAnswer(input, q)` from the statistics `st`. -/
def checkTypeAnswer (st : Stats) (input : List Char) (q : Question) : TypeResult :=
  let parsed := parseEquation input
  let sc := scoreCoeffs parsed q
  let isPerfect : Bool := decide (sc.score = sc.maxScore)
  let st1 : Stats := if 0 < sc.score ∧ isPerfect = false then showPoints st sc.score else st
  if isPerfect then
    ⟨showPoints st1 (sc.score + 1), sc, ⟨true, ["Perfetto! Equazione corretta.".toList]⟩⟩
  else
    let errors : List (List Char) :=
      if sc.score = 0 then "Nessun coefficiente corretto.".toList :: sc.errors
      else ("Punteggio parziale: ".toList ++ numToString sc.score ++ ['/'] ++
        numToString sc.maxScore) :: sc.errors
    ⟨st1, sc, ⟨false, errors⟩⟩

/-! ## Stroke analysis -/

/-- A stroke point in world coordinates. -/
structure Point where
  x : ℚ
  y : ℚ
  deriving DecidableEq

/-- The record returned by `InputAnalyzer.analyze`. -/
structure Analysis where
  concavity : ℤ
  yIntercept : ℚ
  slopeAtIntercept : ℚ
  xInterceptsCount : ℕ
  deriving DecidableEq

/-- The variables `minDistX`, `closestToYAxis`, `closestIndex` of `analyze`. -/
structure Closest where
  minDistX : ℚ
  closestToYAxis : Point
  closestIndex : ℕ
  deriving DecidableEq

/-- The `forEach` scan of `analyze` for the point closest to the y-axis. -/
def closestScan (p0 : Point) (points : List Point) : Closest :=
  points.enum.foldl
    (fun acc ip => if |ip.2.x| < acc.minDistX then ⟨|ip.2.x|, ip.2, ip.1⟩ else acc)
    ⟨|p0.x|, p0, 0⟩

/-- The loop of `analyze` counting sign changes of `y` between consecutive
points (`i` runs from `1` to `length - 1`, reading `points[i-1]` and
`points[i]`). -/
def countCrossings : List Point → ℕ
  | [] => 0
  | [_] => 0
  | p :: q :: rest =>
    (if sign q.y ≠ sign p.y ∧ q.y ≠ 0 then 1 else 0) + countCrossings (q :: rest)

/-- The body of `analyze` after the length test; `none` stands for the
`TypeError` of reading a field of an out-of-bounds (`undefined`) element. -/
def analyzeBody (points : List Point) : Option Analysis := do
  let start ← points[0]?
  let last ← points[points.length - 1]?
  let midIndex := points.length / 2
  let mid ← points[midIndex]?
  let isEndsHigher : Bool := decide (mid.y < start.y) && decide (mid.y < last.y)
  let concavity : ℤ := if isEndsHigher then 1 else -1
  let cl := closestScan start points
  let yIntercept := cl.closestToYAxis.y
  let offset := 5
  let p1 ← (if offset ≤ cl.closestIndex then points[cl.closestIndex - offset]? else points[0]?)
  let p2 ←
    (if cl.closestIndex + offset < points.length then points[cl.closestIndex + offset]?
    else points[points.length - 1]?)
  let slopeAtIntercept : ℚ := if p2.x ≠ p1.x then (p2.y - p1.y) / (p2.x - p1.x) else 0
  pure ⟨concavity, yIntercept, slopeAtIntercept, countCrossings points⟩

/-- Outcome of a call that may return `null` or throw. -/
inductive AnalyzeResult where
  | null : AnalyzeResult
  | typeError : AnalyzeResult
  | ok (an : Analysis) : AnalyzeResult
  deriving DecidableEq

/-- `InputAnalyzer.analyze(points)`. -/
def analyze (points : List Point) : AnalyzeResult :=
  if points.length < 2 then AnalyzeResult.null
  else
    match analyzeBody points with
    | some an => AnalyzeResult.ok an
    | none => AnalyzeResult.typeError

/-! ## Drawing verdict -/

/-- The four booleans of `checkDrawAnswer` and the expected root count. -/
structure DrawChecks where
  concavityOk : Bool
  interceptOk : Bool
  slopeOk : Bool
  rootsOk : Bool
  expectedRoots : ℤ
  deriving DecidableEq

/-- The checks of `checkDrawAnswer` on the analysis `an` of the stroke. -/
def drawChecks (q : Question) (an : Analysis) : DrawChecks :=
  let concavityOk : Bool := decide (an.concavity = sign q.a)
  let interceptOk : Bool := decide (|an.yIntercept - q.c| < 2)
  let slopeOk : Bool :=
    if |q.b| < 3 / 10 then decide (|an.slopeAtIntercept| < 1)
    else decide (sign an.slopeAtIntercept = sign q.b)
  let delta : ℚ := q.b * q.b - 4 * q.a * q.c
  let expectedRoots : ℤ := if 1 / 10 < delta then 2 else if delta < -(1 / 10) then 0 else 1
  let rootsOk : Bool :=
    decide (|(an.xInterceptsCount : ℤ) - expectedRoots| ≤ (if |delta| < 1 then 1 else 0))
  ⟨concavityOk, interceptOk, slopeOk, rootsOk, expectedRoots⟩

/-- The value `isCorrect` of `checkDrawAnswer`. -/
def DrawChecks.isCorrect (ch : DrawChecks) : Bool :=
  ch.concavityOk && ch.interceptOk && ch.slopeOk && ch.rootsOk

/-- The list `details` of `checkDrawAnswer`. -/
def DrawChecks.details (ch : DrawChecks) : List (List Char) :=
  let d0 : List (List Char) := []
  let d1 := if !ch.concavityOk then d0 ++ ["Concavità errata".toList] else d0
  let d2 := if !ch.interceptOk then d1 ++ ["Intercetta Y errata".toList] else d1
  let d3 := if !ch.slopeOk then d2 ++ ["Pendenza all\x27origine errata".toList] else d2
  if !ch.rootsOk then
    d3 ++ ["Intersezioni asse X errate (attese: ".toList ++ numToString ch.expectedRoots ++ [')']]
  else d3

/-- What one call of `checkDrawAnswer` does. -/
inductive DrawOutcome where
  | ignored : DrawOutcome
  | typeError : DrawOutcome
  | judged (checks : DrawChecks) (feedback : Feedback) : DrawOutcome
  deriving DecidableEq

/-- `QuizEngine.checkDrawAnswer(points)` for the current question `q`, from
the statistics `st`. -/
def checkDrawAnswer (st : Stats) (q : Question) (points : List Point) : Stats × DrawOutcome :=
  if points.length < 10 then (st, DrawOutcome.ignored)
  else
    match analyze points with
    | AnalyzeResult.ok an =>
      let ch := drawChecks q an
      if ch.isCorrect then (showPoints st 10, DrawOutcome.judged ch ⟨true, ["Ottimo lavoro!".toList]⟩)
      else (st, DrawOutcome.judged ch ⟨false, ch.details⟩)
    | _ => (st, DrawOutcome.typeError)

/-! ## Auxiliary definitions used in the statements -/

/-- The text `s` with every `²` written `^2`. -/
def caret (s : List Char) : List Char :=
  s.flatMap fun ch => if ch = '²' then ['^', '2'] else [ch]

/-- The values `randomInt(-4, 4)` can take. -/
def intValues : List ℤ := [-4, -3, -2, -1, 0, 1, 2, 3, 4]

/-- Stated from the specification: `|user - correct| < 0.01`, the difference
and the constant `0.01` being the doubles the program computes with. -/
def specWithin (u : JSNum) (c : ℚ) : Bool :=
  (u.subRat c).absLt (roundDouble (1 / 100))

/-- Stated from the specification: user value and correct value have the
same sign and neither is exactly zero. -/
def specSameSign (u : JSNum) (c : ℚ) : Bool :=
  match u with
  | JSNum.nan => false
  | JSNum.num v => decide (sign v = sign c ∧ v ≠ 0 ∧ c ≠ 0)
  | JSNum.inf s => decide ((if s then -1 else 1) = sign c ∧ c ≠ 0)

/-- Stated from the specification: points of one coefficient. `3` within
`0.01` of the correct value; otherwise `1` when user value and correct value
have the same sign and neither is zero; otherwise `0`. -/
def specTermPoints (u : JSNum) (c : ℚ) : ℤ :=
  if specWithin u c then 3
  else if specSameSign u c then 1
  else 0

/-- Stated from the specification: the term-error messages of one
coefficient, naming the term. None within `0.01`; the sign-correct wording
in the one-point case; the correct value in the zero-point case. -/
def specTermErrors (name : List Char) (u : JSNum) (c : ℚ) : List (List Char) :=
  if specWithin u c then []
  else if specSameSign u c then
    ["Coefficiente ".toList ++ name ++ " errato. (Segno corretto)".toList]
  else ["Coefficiente ".toList ++ name ++ " errato. (Corretto: ".toList ++
    numToString c ++ [')']]

/-- Stated from the specification: the score of a parsed triple, the sum of
the points of the three coefficients. -/
def specScore (parsed : Parsed) (q : Question) : ℤ :=
  specTermPoints parsed.a q.a + specTermPoints parsed.b q.b + specTermPoints parsed.c q.c

/-- Stated from the specification: the discriminant `b*b - 4*a*c`. -/
def specDelta (q : Question) : ℚ := q.b * q.b - 4 * q.a * q.c

/-- Stated from the specification: expected root count, `2` if `D > 0.1`,
`0` if `D < -0.1`, else `1`. -/
def specExpectedRoots (q : Question) : ℤ :=
  if 1 / 10 < specDelta q then 2 else if specDelta q < -(1 / 10) then 0 else 1

/-- A stroke of eleven points on `y = x²`, from `x = -5` to `x = 5`. -/
def strokeSquare : List Point :=
  (List.range 11).map fun i => ⟨(i : ℚ) - 5, ((i : ℚ) - 5) * ((i : ℚ) - 5)⟩

/-- A stroke of two points, from the origin to `(1, 1)`. -/
def strokeShort : List Point := [⟨0, 0⟩, ⟨1, 1⟩]

/-- Stated from the specification: the quadratic term of the canonical
string. `x²` if `a = 1`, `-x²` if `a = -1`, otherwise the decimal text of `a`
followed by `x²`. -/
def specTermA (a : ℚ) : List Char :=
  if a = 1 then "x²".toList
  else if a = -1 then "-x²".toList
  else numToString a ++ "x²".toList

/-- Stated from the specification: the linear term of the canonical string.
Empty if `b = 0`, ` + x` / ` - x` if `b = 1` / `-1`, otherwise ` + ` or ` - `
by the sign of `b`, then `|b|` and `x`. -/
def specTermB (b : ℚ) : List Char :=
  if b = 0 then []
  else if b = 1 then " + x".toList
  else if b = -1 then " - x".toList
  else (if 0 < b then " + ".toList else " - ".toList) ++ numToString |b| ++ ['x']

/-- Stated from the specification: the constant term of the canonical string.
Empty if `c = 0`, otherwise ` + ` or ` - ` by the sign of `c`, then `|c|`. -/
def specTermC (c : ℚ) : List Char :=
  if c = 0 then []
  else (if 0 < c then " + ".toList else " - ".toList) ++ numToString |c|

/-- Invariant of the scan for the point closest to the y-axis after the first
`m` points: the recorded index holds the recorded point, whose `|x|` is the
recorded distance, not above the `|x|` of the first `m` points and strictly
below the `|x|` of every earlier point. -/
def ScanInv (points : List Point) (m : ℕ) (acc : Closest) : Prop :=
  points[acc.closestIndex]? = some acc.closestToYAxis ∧
    acc.minDistX = |acc.closestToYAxis.x| ∧
    (∀ i p, i < m → points[i]? = some p → acc.minDistX ≤ |p.x|) ∧
    (∀ j p, j < acc.closestIndex → points[j]? = some p → acc.minDistX < |p.x|)

/-- Stated from the specification: the test of one index `i` of the crossing
count, `i ≥ 1`, `sign(y[i])` differs from `sign(y[i-1])` and `y[i]` is not
`0`. -/
def crossingAt (points : List Point) (i : ℕ) : Bool :=
  match points[i - 1]?, points[i]? with
  | some p, some q => decide (1 ≤ i ∧ sign q.y ≠ sign p.y ∧ q.y ≠ 0)
  | _, _ => false

/-- Stated from the specification: the number of indices of the stroke that
pass the test `crossingAt`. -/
def specCrossings (points : List Point) : ℕ :=
  (List.range points.length).countP (crossingAt points)

/-- A stroke of two points crossing the x-axis, from `(-1, -1)` to `(1, 1)`. -/
def strokeCross : List Point := [⟨-1, -1⟩, ⟨1, 1⟩]

/-- A trace of three points on `y = -x²`, from `x = -1` to `x = 1`. -/
def strokeDown : List Point := [⟨-1, -1⟩, ⟨0, 0⟩, ⟨1, -1⟩]

/-- A question `generate` can return: the result for some outcomes of the
three calls of `Math.random()`, each in `[0, 1)`. -/
def Generated (q : Question) : Prop :=
  ∃ r1 r2 r3 : ℚ, (0 ≤ r1 ∧ r1 < 1) ∧ (0 ≤ r2 ∧ r2 < 1) ∧ (0 ≤ r3 ∧ r3 < 1) ∧
    generate r1 r2 r3 = some q

/-- Five results of `generate`: `2x²` twice, `-x²`, `x²` and `x² + x`. -/
def candsExample : List Question :=
  [mkQuestion 2 0 0, mkQuestion 2 0 0, mkQuestion (-1) 0 0, mkQuestion 1 0 0,
    mkQuestion 1 1 0]

/-! ## Session statistics along a sequence of answers -/

/-- The statistics a session starts from: the stored record, or zeros when
nothing is stored
(`JSON.parse(...) || { totalScore: 0, attempts: 0, correct: 0 }`). -/
def loadStats (stored : Option Stats) : Stats :=
  match stored with
  | some st => st
  | none => ⟨0, 0, 0⟩

/-- The statistics written by the reset button. -/
def resetStats : Stats := ⟨0, 0, 0⟩

/-- One scored answer (typed, drawn or chosen), or one call of `showPoints`. -/
inductive Answer where
  | typed (input : List Char) (q : Question) : Answer
  | drawn (q : Question) (points : List Point) : Answer
  | chosen (selected correct : Question) : Answer
  | awarded (points : ℤ) : Answer

/-- The statistics after one answer. `checkChoice` shows its feedback only:
it neither calls `showPoints` nor writes to `this.stats`. -/
def stepAnswer (st : Stats) : Answer → Stats
  | Answer.typed input q => (checkTypeAnswer st input q).stats
  | Answer.drawn q points => (checkDrawAnswer st q points).1
  | Answer.chosen _ _ => st
  | Answer.awarded points => showPoints st points

/-- The statistics after a sequence of answers, from the statistics `st`. -/
def runAnswers (st : Stats) (answers : List Answer) : Stats :=
  answers.foldl stepAnswer st

/-! ## Equation parsing: properties -/

/-- Exhaustive evaluation over the generator's domain: the caret form of a
canonical string, after `y = `, is parsed back to its coefficients. -/
theorem parse_caret_finite :
    ∀ a ∈ aValues, ∀ b ∈ intValues, ∀ c ∈ intValues,
      parseEquation ("y = ".toList ++ caret (formatEquation a b c)) =
        ⟨JSNum.num a, JSNum.num b, JSNum.num c⟩ := by
  decide!

/-- Exhaustive evaluation over the generator's domain: the quadratic pattern
never matches a canonical string, so `a` is read as `0`. -/
theorem parse_format_finite :
    ∀ a ∈ aValues, ∀ b ∈ intValues, ∀ c ∈ intValues,
      (parseEquation (formatEquation a b c)).a = JSNum.num 0 := by
  decide!

/-- An integer between `-4` and `4` is one of the nine listed values. -/
theorem mem_intValues {b : ℤ} (h1 : -4 ≤ b) (h2 : b ≤ 4) : b ∈ intValues := by
  interval_cases b <;> simp [intValues]

/-- Claim C1, evaluated on the code: the canonical string of `(1, 2, -1)` is
`x² + 2x - 1`, and `parseEquation` reads it as `(0, 1, 2)`: the quadratic
pattern wants a digit `2` after `x²`, so the round trip does not recover the
coefficients. -/
theorem C1_roundtrip_fails :
    formatEquation 1 2 (-1) = "x² + 2x - 1".toList ∧
      parseEquation (formatEquation 1 2 (-1)) = ⟨JSNum.num 0, JSNum.num 1, JSNum.num 2⟩ := by
  decide!

/-- Claim C2: for every `a` of the generator and all integers `b`, `c` in
`[-4, 4]`, `parseEquation` applied to `y = ` followed by the canonical string
written with `x^2` returns exactly `(a, b, c)`. -/
theorem C2_parse_caret (a : ℚ) (b c : ℤ) (ha : a ∈ aValues)
    (hb1 : -4 ≤ b) (hb2 : b ≤ 4) (hc1 : -4 ≤ c) (hc2 : c ≤ 4) :
    parseEquation ("y = ".toList ++ caret (formatEquation a b c)) =
      ⟨JSNum.num a, JSNum.num b, JSNum.num c⟩ :=
  parse_caret_finite a ha b (mem_intValues hb1 hb2) c (mem_intValues hc1 hc2)

/-- Claim C2 at the input of the specification: `y = x^2 + 2x - 1` is the
caret form of the canonical string of `(1, 2, -1)` and is parsed to
`(1, 2, -1)`. -/
theorem C2_parse_caret_witness :
    "y = ".toList ++ caret (formatEquation 1 ((2 : ℤ) : ℚ) ((-1 : ℤ) : ℚ)) =
        "y = x^2 + 2x - 1".toList ∧
      parseEquation ("y = ".toList ++ caret (formatEquation 1 ((2 : ℤ) : ℚ) ((-1 : ℤ) : ℚ))) =
        ⟨JSNum.num 1, JSNum.num ((2 : ℤ) : ℚ), JSNum.num ((-1 : ℤ) : ℚ)⟩ :=
  ⟨by decide!, C2_parse_caret 1 2 (-1) (by decide!) (by decide) (by decide) (by decide)
    (by decide)⟩

/-- Claim C3, evaluated on the code: with the superscript glyph the quadratic
term is not recognised. `-x²-3` yields `a = 0`, `b = -1`, `c = -3` (the
linear pattern takes `-x`), whereas `-x^2-3` and `-x2-3` yield
`(-1, 0, -3)`. -/
theorem C3_superscript_not_recognised :
    parseEquation "-x²-3".toList = ⟨JSNum.num 0, JSNum.num (-1), JSNum.num (-3)⟩ ∧
      parseEquation "-x^2-3".toList = ⟨JSNum.num (-1), JSNum.num 0, JSNum.num (-3)⟩ ∧
      parseEquation "-x2-3".toList = ⟨JSNum.num (-1), JSNum.num 0, JSNum.num (-3)⟩ := by
  decide!

/-- What follows the optional sign is a suffix of the text. -/
theorem takeSign_snd_suffix (t : List Char) : (takeSign t).2 <:+ t := by
  cases t with
  | nil => exact List.suffix_refl _
  | cons c r =>
    simp only [takeSign]
    split_ifs
    · exact List.suffix_cons c r
    · exact List.suffix_refl _

/-- What follows the coefficient group is a suffix of the text. -/
theorem coeffPrefix_snd_suffix (t : List Char) : (coeffPrefix t).2 <:+ t :=
  (List.dropWhile_suffix isNumChar).trans (takeSign_snd_suffix t)

/-- The linear pattern only matches a text that contains `x`. -/
theorem matchLinAt_some_mem {t : List Char} {m : Match} (h : matchLinAt t = some m) :
    'x' ∈ t := by
  unfold matchLinAt at h
  simp only at h
  split at h
  · next r heq =>
    have : 'x' ∈ (coeffPrefix t).2 := by rw [heq]; exact List.mem_cons_self _ _
    exact (coeffPrefix_snd_suffix t).subset this
  · cases h

/-- The quadratic pattern only matches a text that contains `x`. -/
theorem matchQuadAt_some_mem {t : List Char} {m : Match} (h : matchQuadAt t = some m) :
    'x' ∈ t := by
  unfold matchQuadAt at h
  simp only at h
  split at h
  · next r heq =>
    have : 'x' ∈ (coeffPrefix t).2 := by rw [heq]; exact List.mem_cons_self _ _
    exact (coeffPrefix_snd_suffix t).subset this
  · next c r heq =>
    have : 'x' ∈ (coeffPrefix t).2 := by rw [heq]; exact List.mem_cons_self _ _
    exact (coeffPrefix_snd_suffix t).subset this
  · cases h

/-- The constant pattern only matches a text that contains a digit or a
point. -/
theorem matchConstAt_some_mem {t : List Char} {m : Match} (h : matchConstAt t = some m) :
    ∃ ch ∈ t, isNumChar ch = true := by
  unfold matchConstAt at h
  simp only at h
  split_ifs at h with hemp
  cases hds : (takeSign t).2.takeWhile isNumChar with
  | nil => rw [hds] at hemp; exact absurd rfl hemp
  | cons ch r =>
    have hmem : ch ∈ (takeSign t).2.takeWhile isNumChar := by
      rw [hds]; exact List.mem_cons_self _ _
    refine ⟨ch, ?_, ?_⟩
    · exact (takeSign_snd_suffix t).subset ((List.takeWhile_prefix isNumChar).subset hmem)
    · exact List.mem_takeWhile_imp hmem

/-- A match found by the search is a match anchored at some suffix. -/
theorem search_some {f : List Char → Option Match} {m : Match} :
    ∀ {s : List Char}, search f s = some m → ∃ t, t <:+ s ∧ f t = some m := by
  intro s
  induction s with
  | nil => intro h; exact ⟨[], List.suffix_refl _, h⟩
  | cons c r ih =>
    intro h
    unfold search at h
    split at h
    · next m2 heq =>
      cases h
      exact ⟨c :: r, List.suffix_refl _, heq⟩
    · obtain ⟨t, ht, hf⟩ := ih h
      exact ⟨t, ht.trans (List.suffix_cons c r), hf⟩

/-- Removing an occurrence leaves a sublist of the text. -/
theorem replaceFirst_sublist (pat : List Char) :
    ∀ s : List Char, (replaceFirst pat s).Sublist s := by
  intro s
  induction s with
  | nil => exact List.Sublist.refl _
  | cons c r ih =>
    unfold replaceFirst
    split_ifs
    · exact List.drop_sublist _ _
    · exact ih.cons₂ c

/-- Removing a match leaves a sublist of the text. -/
theorem removeMatch_sublist (m : Option Match) (s : List Char) :
    (removeMatch m s).Sublist s := by
  cases m with
  | none => exact List.Sublist.refl _
  | some m => exact replaceFirst_sublist _ _

/-- The normalised text is a sublist of the lower-cased input. -/
theorem normalize_sublist (input : List Char) :
    (normalize input).Sublist (toLowerCase input) :=
  (replaceFirst_sublist _ _).trans (List.filter_sublist _)

/-- A term that cannot be in the text is returned as the number `0`: `a` and
`b` when the lower-cased input has no `x`, `c` when it has neither a digit nor
a point. -/
theorem parseEquation_missing_text (input : List Char) :
    ('x' ∉ toLowerCase input →
        (parseEquation input).a = JSNum.num 0 ∧ (parseEquation input).b = JSNum.num 0) ∧
      ((∀ ch ∈ toLowerCase input, isNumChar ch = false) →
        (parseEquation input).c = JSNum.num 0) := by
  have hA : search matchQuadAt (normalize input) = none →
      (parseEquation input).a = JSNum.num 0 := fun h => by simp only [parseEquation, h]
  have hB : search matchLinAt
      (removeMatch (search matchQuadAt (normalize input)) (normalize input)) = none →
      (parseEquation input).b = JSNum.num 0 := fun h => by simp only [parseEquation, h]
  have hC : search matchConstAt
      (removeMatch
        (search matchLinAt
          (removeMatch (search matchQuadAt (normalize input)) (normalize input)))
        (removeMatch (search matchQuadAt (normalize input)) (normalize input))) = none →
      (parseEquation input).c = JSNum.num 0 := fun h => by simp only [parseEquation, h]
  refine ⟨fun hx => ⟨hA ?_, hB ?_⟩, fun hd => hC ?_⟩
  · cases h : search matchQuadAt (normalize input) with
    | none => rfl
    | some m =>
      obtain ⟨t, ht, hf⟩ := search_some h
      exact absurd ((normalize_sublist input).subset (ht.subset (matchQuadAt_some_mem hf))) hx
  · cases h : search matchLinAt
        (removeMatch (search matchQuadAt (normalize input)) (normalize input)) with
    | none => rfl
    | some m =>
      obtain ⟨t, ht, hf⟩ := search_some h
      exact absurd ((normalize_sublist input).subset
        ((removeMatch_sublist _ _).subset (ht.subset (matchLinAt_some_mem hf)))) hx
  · cases h : search matchConstAt
        (removeMatch
          (search matchLinAt
            (removeMatch (search matchQuadAt (normalize input)) (normalize input)))
          (removeMatch (search matchQuadAt (normalize input)) (normalize input))) with
    | none => rfl
    | some m =>
      obtain ⟨t, ht, hf⟩ := search_some h
      obtain ⟨ch, hch, hnum⟩ := matchConstAt_some_mem hf
      have hmem : ch ∈ toLowerCase input :=
        (normalize_sublist input).subset ((removeMatch_sublist _ _).subset
          ((removeMatch_sublist _ _).subset (ht.subset hch)))
      rw [hd ch hmem] at hnum
      cases hnum

/-- Claim C4, evaluated on the code: the omitted linear and constant terms
of `x^2` come back as the number `0`, so `x^2` and `x^2+0x+0` are parsed to
the same structure `(1, 0, 0)` and are scored alike; the value handed to
`checkCoeff` is never `null`, which that helper would treat as `0`. -/
theorem C4_absent_not_distinguished :
    parseEquation "x^2".toList = ⟨JSNum.num 1, JSNum.num 0, JSNum.num 0⟩ ∧
      parseEquation "x^2+0x+0".toList = ⟨JSNum.num 1, JSNum.num 0, JSNum.num 0⟩ ∧
      parseEquation "x^2".toList = parseEquation "x^2+0x+0".toList ∧
      checkTypeAnswer ⟨0, 0, 0⟩ "x^2".toList (mkQuestion 1 2 0) =
        checkTypeAnswer ⟨0, 0, 0⟩ "x^2+0x+0".toList (mkQuestion 1 2 0) ∧
      checkCoeff ⟨0, 0, []⟩ nameB none 2 = checkCoeff ⟨0, 0, []⟩ nameB (some (JSNum.num 0)) 2 := by
  decide!

/-- Claim C5, evaluated on the code: a lone `.` before `x` is captured as
the coefficient text and handed to `parseFloat`, which returns `NaN`; the
same happens with `..` before `x^2`. The empty input gives `(0, 0, 0)`. -/
theorem C5_nan_coefficient :
    parseEquation ".x".toList = ⟨JSNum.num 0, JSNum.nan, JSNum.num 0⟩ ∧
      (parseEquation "..x^2".toList).a = JSNum.nan ∧
      parseEquation [] = ⟨JSNum.num 0, JSNum.num 0, JSNum.num 0⟩ := by
  decide!

/-! ## Question generation: properties -/

/-- For `0 ≤ r < 1` and a positive `n`, `Math.floor(r * n)` is one of
`0, …, n - 1`. -/
theorem floor_mul_bounds {r : ℚ} (h0 : 0 ≤ r) (h1 : r < 1) {n : ℤ} (hn : 0 < n) :
    0 ≤ ⌊r * (n : ℚ)⌋ ∧ ⌊r * (n : ℚ)⌋ < n := by
  have hnq : (0 : ℚ) < (n : ℚ) := by exact_mod_cast hn
  constructor
  · exact Int.floor_nonneg.mpr (mul_nonneg h0 hnq.le)
  · rw [Int.floor_lt]
    calc r * (n : ℚ) < 1 * (n : ℚ) := mul_lt_mul_of_pos_right h1 hnq
      _ = (n : ℚ) := one_mul _

/-- `randomInt(-4, 4)` stays between `-4` and `4`. -/
theorem randomInt_bounds {r : ℚ} (h0 : 0 ≤ r) (h1 : r < 1) :
    -4 ≤ randomInt (-4) 4 r ∧ randomInt (-4) 4 r ≤ 4 := by
  have h := floor_mul_bounds h0 h1 (n := 4 - -4 + 1) (by norm_num)
  unfold randomInt
  omega

/-- `pickRandom` on the six leading coefficients reads in bounds and returns
one of them. -/
theorem pickRandom_aValues {r : ℚ} (h0 : 0 ≤ r) (h1 : r < 1) :
    (⌊r * (aValues.length : ℚ)⌋).toNat < aValues.length ∧
      ∃ a, pickRandom aValues r = some a ∧ a ∈ aValues := by
  have h := floor_mul_bounds h0 h1 (n := 6) (by norm_num)
  have hlen : aValues.length = 6 := rfl
  have hcast : ((aValues.length : ℕ) : ℚ) = ((6 : ℤ) : ℚ) := by rw [hlen]; norm_num
  rw [hcast]
  have hk : (⌊r * ((6 : ℤ) : ℚ)⌋).toNat < 6 := by omega
  refine ⟨by rw [hlen]; exact hk, ?_⟩
  unfold pickRandom
  rw [hcast]
  have hlt : (⌊r * ((6 : ℤ) : ℚ)⌋).toNat < aValues.length := by rw [hlen]; exact hk
  refine ⟨aValues[(⌊r * ((6 : ℤ) : ℚ)⌋).toNat], ?_, List.getElem_mem _⟩
  exact List.getElem?_eq_getElem hlt

/-- None of the six leading coefficients is zero. -/
theorem aValues_ne_zero {a : ℚ} (ha : a ∈ aValues) : a ≠ 0 := by
  simp only [aValues, List.mem_cons, List.mem_singleton, List.not_mem_nil, or_false] at ha
  rcases ha with h | h | h | h | h | h <;> rw [h] <;> norm_num

/-- Claim C6: for every outcome of the three calls of `Math.random()`,
`generate` reads `aValues` in bounds and returns a question whose `a` is one
of `-2, -1, -0.5, 0.5, 1, 2`, hence non-zero, and whose `b`, `c` are integers
between `-4` and `4`. -/
theorem C6_generate_domain (r1 r2 r3 : ℚ) (h1 : 0 ≤ r1 ∧ r1 < 1) (h2 : 0 ≤ r2 ∧ r2 < 1)
    (h3 : 0 ≤ r3 ∧ r3 < 1) :
    (⌊r1 * (aValues.length : ℚ)⌋).toNat < aValues.length ∧
      ∃ q, generate r1 r2 r3 = some q ∧ q.a ∈ aValues ∧ q.a ≠ 0 ∧
        ∃ b c : ℤ, q.b = (b : ℚ) ∧ q.c = (c : ℚ) ∧ -4 ≤ b ∧ b ≤ 4 ∧ -4 ≤ c ∧ c ≤ 4 ∧
          q.equationDisplay = formatEquation q.a q.b q.c := by
  obtain ⟨hidx, a, hpick, ha⟩ := pickRandom_aValues h1.1 h1.2
  refine ⟨hidx, mkQuestion a (randomInt (-4) 4 r2) (randomInt (-4) 4 r3), ?_, ha,
    aValues_ne_zero ha, randomInt (-4) 4 r2, randomInt (-4) 4 r3, rfl, rfl,
    (randomInt_bounds h2.1 h2.2).1, (randomInt_bounds h2.1 h2.2).2,
    (randomInt_bounds h3.1 h3.2).1, (randomInt_bounds h3.1 h3.2).2, rfl⟩
  simp [generate, hpick]

/-- Claim C6 at the outcomes `0.9, 0.5, 0.5`: the question is `2x²`. -/
theorem C6_generate_domain_witness :
    generate (9 / 10) (1 / 2) (1 / 2) = some (mkQuestion 2 0 0) ∧
      ∃ q, generate (9 / 10) (1 / 2) (1 / 2) = some q ∧ q.a ∈ aValues ∧ q.a ≠ 0 ∧
        ∃ b c : ℤ, q.b = (b : ℚ) ∧ q.c = (c : ℚ) ∧ -4 ≤ b ∧ b ≤ 4 ∧ -4 ≤ c ∧ c ≤ 4 ∧
          q.equationDisplay = formatEquation q.a q.b q.c :=
  ⟨by decide!,
    (C6_generate_domain (9 / 10) (1 / 2) (1 / 2) ⟨by norm_num, by norm_num⟩
      ⟨by norm_num, by norm_num⟩ ⟨by norm_num, by norm_num⟩).2⟩

/-! ## Multiple-choice rounds: properties -/

/-- Claim C7, evaluated on the code: with target `x²` and the generated
candidates `2x²`, `2x²`, `-x²`, the loop of `setupPickEqMode` finishes with
four options of which two carry the same text `2x²`, since a candidate is
compared with the target only. On the same candidates the loop of
`setupPickPlotMode` rejects the repeated `2x²` and asks for one more. -/
theorem C7_pickEq_duplicate_options :
    generate (9 / 10) (1 / 2) (1 / 2) = some (mkQuestion 2 0 0) ∧
      generate (1 / 5) (1 / 2) (1 / 2) = some (mkQuestion (-1) 0 0) ∧
      setupPickEqMode (mkQuestion 1 0 0)
          [mkQuestion 2 0 0, mkQuestion 2 0 0, mkQuestion (-1) 0 0] (fun _ => 0) =
        some [mkQuestion 2 0 0, mkQuestion 2 0 0, mkQuestion (-1) 0 0, mkQuestion 1 0 0] ∧
      ¬ ([mkQuestion 2 0 0, mkQuestion 2 0 0, mkQuestion (-1) 0 0, mkQuestion 1 0 0].map
          Question.equationDisplay).Nodup ∧
      setupPickPlotMode (mkQuestion 1 0 0)
          [mkQuestion 2 0 0, mkQuestion 2 0 0, mkQuestion (-1) 0 0] (fun _ => 0) = none := by
  decide!

/-! ## Free-text scoring: properties -/

/-- The second test of `checkCoeff` is the same-sign test of the
specification. -/
theorem signEq_iff_specSameSign (u : JSNum) (c : ℚ) :
    (u.signEq c = true ∧ u ≠ JSNum.num 0 ∧ c ≠ 0) ↔ specSameSign u c = true := by
  cases u with
  | nan => simp [JSNum.signEq, specSameSign]
  | num v => simp [JSNum.signEq, specSameSign]
  | inf s => simp [JSNum.signEq, specSameSign]

/-- One call of `checkCoeff` adds the points of the coefficient to `score`,
`3` to `maxScore`, and appends the messages of the coefficient. -/
theorem checkCoeff_eq (acc : Scoring) (name : List Char) (u : JSNum) (c : ℚ) :
    checkCoeff acc name (some u) c =
      ⟨acc.score + specTermPoints u c, acc.maxScore + 3,
        acc.errors ++ specTermErrors name u c⟩ := by
  have hw : u.absSubLt c (1 / 100) = specWithin u c := rfl
  have hs := signEq_iff_specSameSign u c
  unfold checkCoeff specTermPoints specTermErrors
  simp only [hw]
  by_cases h1 : specWithin u c = true
  · simp only [h1, if_true, List.append_nil]
  · by_cases h2 : specSameSign u c = true
    · rw [if_neg h1, if_pos (hs.mpr h2), if_neg h1, if_pos h2, if_neg h1, if_pos h2]
      rfl
    · rw [if_neg h1, if_neg (fun h => h2 (hs.mp h)), if_neg h1, if_neg h2, if_neg h1,
        if_neg h2]
      simp only [add_zero]
      rfl

/-- The points of a coefficient are `0`, `1` or `3`, and they are `3` exactly
when the coefficient has no message. -/
theorem specTermPoints_cases (name : List Char) (u : JSNum) (c : ℚ) :
    0 ≤ specTermPoints u c ∧ specTermPoints u c ≤ 3 ∧
      (specTermPoints u c = 3 ↔ specTermErrors name u c = []) ∧
      (specTermErrors name u c).length ≤ 1 := by
  simp only [specTermPoints, specTermErrors]
  split_ifs <;> simp

/-- The three calls of `checkCoeff` give the score, maximum and messages of
the specification. -/
theorem scoreCoeffs_eq (parsed : Parsed) (q : Question) :
    scoreCoeffs parsed q =
      ⟨specScore parsed q, 9,
        specTermErrors "a (x²)".toList parsed.a q.a ++
          specTermErrors "b (x)".toList parsed.b q.b ++
          specTermErrors "c (costante)".toList parsed.c q.c⟩ := by
  simp only [scoreCoeffs, checkCoeff_eq, specScore]
  have hA : nameA = "a (x²)".toList := rfl
  have hB : nameB = "b (x)".toList := rfl
  have hC : nameC = "c (costante)".toList := rfl
  rw [hA, hB, hC]
  simp

/-- The score of the specification lies between `0` and `9`, and it is `9`
exactly when no coefficient has a message. -/
theorem specScore_bounds (parsed : Parsed) (q : Question) :
    0 ≤ specScore parsed q ∧ specScore parsed q ≤ 9 ∧
      (specScore parsed q = 9 ↔
        specTermErrors "a (x²)".toList parsed.a q.a ++
          specTermErrors "b (x)".toList parsed.b q.b ++
          specTermErrors "c (costante)".toList parsed.c q.c = []) := by
  have ha := specTermPoints_cases "a (x²)".toList parsed.a q.a
  have hb := specTermPoints_cases "b (x)".toList parsed.b q.b
  have hc := specTermPoints_cases "c (costante)".toList parsed.c q.c
  unfold specScore
  refine ⟨by omega, by omega, ?_⟩
  constructor
  · intro h
    have h1 : specTermPoints parsed.a q.a = 3 := by omega
    have h2 : specTermPoints parsed.b q.b = 3 := by omega
    have h3 : specTermPoints parsed.c q.c = 3 := by omega
    rw [ha.2.2.1.mp h1, hb.2.2.1.mp h2, hc.2.2.1.mp h3]
    rfl
  · intro h
    rw [List.append_eq_nil, List.append_eq_nil] at h
    have h1 := ha.2.2.1.mpr h.1.1
    have h2 := hb.2.2.1.mpr h.1.2
    have h3 := hc.2.2.1.mpr h.2
    omega

/-- The scoring variables of `checkTypeAnswer` are those of the three checks
on the parsed input. -/
theorem checkTypeAnswer_scoring (st : Stats) (input : List Char) (q : Question) :
    (checkTypeAnswer st input q).scoring = scoreCoeffs (parseEquation input) q := by
  unfold checkTypeAnswer
  simp only
  split_ifs <;> rfl

/-- Claim C8: `maxScore` is `9`; `score` is the sum over the three
coefficients of `3` (within `0.01`), `1` (same sign, neither zero) or `0`; the
term-error messages are those of `a (x²)`, then `b (x)`, then `c (costante)`,
at most one each and none for a coefficient within `0.01`, with the wording
`Coefficiente … errato. (Segno corretto)` in the one-point case and
`Coefficiente … errato. (Corretto: value)` in the zero-point case; so
`score = 9` iff there is no term-error message. A missing (`null`) value is
scored as `0`, and `checkTypeAnswer` scores the parsed input in this way. -/
theorem C8_free_text_scoring (parsed : Parsed) (q : Question) :
    (scoreCoeffs parsed q).maxScore = 9 ∧
      (scoreCoeffs parsed q).score =
        specTermPoints parsed.a q.a + specTermPoints parsed.b q.b +
          specTermPoints parsed.c q.c ∧
      (scoreCoeffs parsed q).errors =
        specTermErrors "a (x²)".toList parsed.a q.a ++
          specTermErrors "b (x)".toList parsed.b q.b ++
          specTermErrors "c (costante)".toList parsed.c q.c ∧
      ((scoreCoeffs parsed q).score = 9 ↔ (scoreCoeffs parsed q).errors = []) ∧
      (∀ (acc : Scoring) (name : List Char) (c : ℚ),
        checkCoeff acc name none c = checkCoeff acc name (some (JSNum.num 0)) c) ∧
      (∀ (st : Stats) (input : List Char),
        (checkTypeAnswer st input q).scoring = scoreCoeffs (parseEquation input) q) ∧
      scoreCoeffs ⟨JSNum.num 1, JSNum.num 2, JSNum.num (-1)⟩ (mkQuestion 1 2 (-1)) =
        ⟨9, 9, []⟩ ∧
      scoreCoeffs ⟨JSNum.num 1, JSNum.num (-2), JSNum.num (-1)⟩ (mkQuestion 1 2 (-1)) =
        ⟨6, 9, ["Coefficiente b (x) errato. (Corretto: 2)".toList]⟩ ∧
      scoreCoeffs ⟨JSNum.num 2, JSNum.num 2, JSNum.num 3⟩ (mkQuestion 1 2 (-1)) =
        ⟨4, 9, ["Coefficiente a (x²) errato. (Segno corretto)".toList,
          "Coefficiente c (costante) errato. (Corretto: -1)".toList]⟩ ∧
      (checkTypeAnswer ⟨0, 0, 0⟩ "y = -0.5x^2 - 2x".toList (mkQuestion (-1 / 2) 2 0)).scoring =
        ⟨6, 9, ["Coefficiente b (x) errato. (Corretto: 2)".toList]⟩ ∧
      (checkTypeAnswer ⟨0, 0, 0⟩ "x^2 + 2x + 2.01".toList (mkQuestion 1 2 2)).scoring =
        ⟨9, 9, []⟩ ∧
      (checkTypeAnswer ⟨0, 0, 0⟩ "x^2 + 2x + 2.02".toList (mkQuestion 1 2 2)).scoring =
        ⟨7, 9, ["Coefficiente c (costante) errato. (Segno corretto)".toList]⟩ := by
  have he := scoreCoeffs_eq parsed q
  have hb := specScore_bounds parsed q
  refine ⟨by rw [he], by rw [he]; rfl, by rw [he], ?_, fun _ _ _ => rfl,
    fun st input => checkTypeAnswer_scoring st input q, by decide!, by decide!, by decide!,
    by decide!, by decide!, by decide!⟩
  rw [he]
  exact hb.2.2

/-- Claim C9: the score of a typed answer is the sum of the points of the
three coefficients of the parsed input, between `0` and `9` out of `9`; after
`checkTypeAnswer`, `stats.totalScore` is its value before plus `score + 1`
when the answer is perfect (`score = 9`, so plus `10`), plus `score` when
`0 < score < 9`, and unchanged when `score = 0`; the answer is reported
correct exactly when it is perfect. -/
theorem C9_points_reported (st : Stats) (input : List Char) (q : Question) :
    (checkTypeAnswer st input q).scoring.score = specScore (parseEquation input) q ∧
      (checkTypeAnswer st input q).scoring.maxScore = 9 ∧
      0 ≤ specScore (parseEquation input) q ∧ specScore (parseEquation input) q ≤ 9 ∧
      (checkTypeAnswer st input q).stats =
        (if specScore (parseEquation input) q = 9 then
          ⟨st.totalScore + (specScore (parseEquation input) q + 1), st.attempts, st.correct⟩
        else if 0 < specScore (parseEquation input) q then
          ⟨st.totalScore + specScore (parseEquation input) q, st.attempts, st.correct⟩
        else st) ∧
      (specScore (parseEquation input) q = 9 →
        (checkTypeAnswer st input q).stats.totalScore = st.totalScore + 10) ∧
      ((checkTypeAnswer st input q).feedback.isCorrect = true ↔
        specScore (parseEquation input) q = 9) ∧
      (checkTypeAnswer ⟨5, 3, 2⟩ "x^2 + 2x - 1".toList (mkQuestion 1 2 (-1))).stats =
        ⟨15, 3, 2⟩ ∧
      (checkTypeAnswer ⟨5, 3, 2⟩ "x^2 - 2x - 1".toList (mkQuestion 1 2 (-1))).stats =
        ⟨11, 3, 2⟩ ∧
      (checkTypeAnswer ⟨5, 3, 2⟩ "-x^2 - 2x + 1".toList (mkQuestion 1 2 (-1))).stats =
        ⟨5, 3, 2⟩ ∧
      (checkTypeAnswer ⟨5, 3, 2⟩ "".toList (mkQuestion 1 2 (-1))).stats = ⟨5, 3, 2⟩ ∧
      (checkTypeAnswer ⟨5, 3, 2⟩ "x^2 + 2x + 2.01".toList (mkQuestion 1 2 2)).stats =
        ⟨15, 3, 2⟩ := by
  have he := scoreCoeffs_eq (parseEquation input) q
  have hb := specScore_bounds (parseEquation input) q
  have hstats : (checkTypeAnswer st input q).stats =
      (if specScore (parseEquation input) q = 9 then
        ⟨st.totalScore + (specScore (parseEquation input) q + 1), st.attempts, st.correct⟩
      else if 0 < specScore (parseEquation input) q then
        ⟨st.totalScore + specScore (parseEquation input) q, st.attempts, st.correct⟩
      else st) := by
    unfold checkTypeAnswer
    simp only [he, showPoints]
    by_cases h9 : specScore (parseEquation input) q = 9
    · simp [h9]
    · by_cases h0 : 0 < specScore (parseEquation input) q
      · simp [h9, h0]
      · simp [h9, h0]
  refine ⟨by rw [checkTypeAnswer_scoring, he], by rw [checkTypeAnswer_scoring, he], hb.1,
    hb.2.1, hstats, ?_, ?_, by decide!, by decide!, by decide!, by decide!, by decide!⟩
  · intro h9
    rw [hstats, if_pos h9, h9]
    norm_num
  · unfold checkTypeAnswer
    simp only [he]
    by_cases h9 : specScore (parseEquation input) q = 9
    · simp [h9]
    · simp [h9]

/-! ## Stroke analysis and drawing verdict: properties -/

/-- The scan for the point closest to the y-axis, started at index `n` with an
index below `B`, ends with an index below `B` when the scanned indices are. -/
theorem closestScan_foldl_index_lt (l : List Point) :
    ∀ (n : ℕ) (acc : Closest) (B : ℕ), acc.closestIndex < B → n + l.length ≤ B →
      (List.foldl
        (fun (acc : Closest) (ip : ℕ × Point) =>
          if |ip.2.x| < acc.minDistX then (⟨|ip.2.x|, ip.2, ip.1⟩ : Closest) else acc)
        acc (List.enumFrom n l)).closestIndex < B := by
  induction l with
  | nil => intro n acc B h _; simpa using h
  | cons p t ih =>
    intro n acc B h hB
    simp only [List.enumFrom_cons, List.foldl_cons]
    apply ih
    · split_ifs
      · simp only [List.length_cons] at hB
        show n < B
        omega
      · exact h
    · simp only [List.length_cons] at hB
      omega

/-- The index recorded by the scan is an index of the stroke. -/
theorem closestScan_index_lt (p0 : Point) (points : List Point) (h : 0 < points.length) :
    (closestScan p0 points).closestIndex < points.length := by
  unfold closestScan List.enum
  exact closestScan_foldl_index_lt points 0 _ points.length h (by omega)

/-- On a non-empty stroke every read of `analyze` is in bounds: the body
returns a record. -/
theorem analyzeBody_isSome (points : List Point) (h : 0 < points.length) :
    ∃ an, analyzeBody points = some an := by
  have h0 : points[0]? = some points[0] := List.getElem?_eq_getElem h
  have hl : points[points.length - 1]? = some (points[points.length - 1]) :=
    List.getElem?_eq_getElem (by omega)
  have hm : points[points.length / 2]? = some (points[points.length / 2]) :=
    List.getElem?_eq_getElem (Nat.div_lt_self h (by norm_num))
  have hidx := closestScan_index_lt points[0] points h
  obtain ⟨p1, hp1⟩ : ∃ p1,
      (if 5 ≤ (closestScan points[0] points).closestIndex then
        points[(closestScan points[0] points).closestIndex - 5]? else points[0]?) = some p1 := by
    split_ifs
    · exact ⟨_, List.getElem?_eq_getElem (by omega)⟩
    · exact ⟨_, h0⟩
  obtain ⟨p2, hp2⟩ : ∃ p2,
      (if (closestScan points[0] points).closestIndex + 5 < points.length then
        points[(closestScan points[0] points).closestIndex + 5]?
      else points[points.length - 1]?) = some p2 := by
    split_ifs with hlt
    · exact ⟨_, List.getElem?_eq_getElem hlt⟩
    · exact ⟨_, hl⟩
  simp only [h0] at hp1
  simp only [hl] at hp2
  simp only [analyzeBody, h0, hl, hm, hp1, hp2, Option.bind_eq_bind, Option.some_bind,
    Option.pure_def]
  exact ⟨_, rfl⟩

/-- On a stroke of at least two points `analyze` returns a feature record. -/
theorem analyze_ok (points : List Point) (h : 2 ≤ points.length) :
    ∃ an, analyze points = AnalyzeResult.ok an := by
  obtain ⟨an, han⟩ := analyzeBody_isSome points (by omega)
  refine ⟨an, ?_⟩
  unfold analyze
  rw [if_neg (by omega), han]

/-- The drawing is judged correct exactly when the four checks of the
specification hold for the analysed features. -/
theorem drawChecks_isCorrect_iff (q : Question) (an : Analysis) :
    (drawChecks q an).isCorrect = true ↔
      an.concavity = sign q.a ∧ |an.yIntercept - q.c| < 2 ∧
        (if |q.b| < 3 / 10 then |an.slopeAtIntercept| < 1
          else sign an.slopeAtIntercept = sign q.b) ∧
        |(an.xInterceptsCount : ℤ) - specExpectedRoots q| ≤
          (if |specDelta q| < 1 then 1 else 0) := by
  simp only [DrawChecks.isCorrect, drawChecks, specExpectedRoots, specDelta, Bool.and_eq_true,
    decide_eq_true_eq, and_assoc]
  refine and_congr_right fun _ => and_congr_right fun _ => and_congr_left fun _ => ?_
  split_ifs <;> simp

/-- Claim C10: for a stroke of at least ten points `analyze` returns a
feature record, `checkDrawAnswer` judges the drawing on it, and accepts iff
concavity equals `sign(a)`, the y-intercept is within `2` of `c`, the slope
check holds (`|slope| < 1` if `|b| < 0.3`, else same sign as `b`), and the
crossing count is within `1` (if `|D| < 1`) or `0` (otherwise) of the expected
root count. -/
theorem C10_draw_verdict (st : Stats) (q : Question) (points : List Point)
    (h : 10 ≤ points.length) :
    ∃ an, analyze points = AnalyzeResult.ok an ∧
      (∃ fb, checkDrawAnswer st q points =
          (if (drawChecks q an).isCorrect then showPoints st 10 else st,
            DrawOutcome.judged (drawChecks q an) fb) ∧
        fb.isCorrect = (drawChecks q an).isCorrect) ∧
      ((drawChecks q an).isCorrect = true ↔
        an.concavity = sign q.a ∧ |an.yIntercept - q.c| < 2 ∧
          (if |q.b| < 3 / 10 then |an.slopeAtIntercept| < 1
            else sign an.slopeAtIntercept = sign q.b) ∧
          |(an.xInterceptsCount : ℤ) - specExpectedRoots q| ≤
            (if |specDelta q| < 1 then 1 else 0)) := by
  obtain ⟨an, han⟩ := analyze_ok points (by omega)
  refine ⟨an, han, ?_, drawChecks_isCorrect_iff q an⟩
  unfold checkDrawAnswer
  rw [if_neg (by omega), han]
  by_cases hc : (drawChecks q an).isCorrect = true
  · exact ⟨⟨true, ["Ottimo lavoro!".toList]⟩, by simp [hc], by simp [hc]⟩
  · exact ⟨⟨false, (drawChecks q an).details⟩, by simp [hc], by simp [hc]⟩

/-- Claim C10 on concrete inputs: the eleven-point trace of `y = x²` is
analysed and accepted for `(1, 0, 0)`, and so are the features
`{concavity: 1, yIntercept: 0.1, slope: 0.05, xInterceptsCount: 1}`, while
the same features with concavity `-1` are rejected. -/
theorem C10_draw_verdict_witness :
    (∃ an, analyze strokeSquare = AnalyzeResult.ok an ∧
      (∃ fb, checkDrawAnswer ⟨0, 0, 0⟩ (mkQuestion 1 0 0) strokeSquare =
          (if (drawChecks (mkQuestion 1 0 0) an).isCorrect then showPoints ⟨0, 0, 0⟩ 10
            else ⟨0, 0, 0⟩,
            DrawOutcome.judged (drawChecks (mkQuestion 1 0 0) an) fb) ∧
        fb.isCorrect = (drawChecks (mkQuestion 1 0 0) an).isCorrect) ∧
      ((drawChecks (mkQuestion 1 0 0) an).isCorrect = true ↔
        an.concavity = sign (mkQuestion 1 0 0).a ∧
          |an.yIntercept - (mkQuestion 1 0 0).c| < 2 ∧
          (if |(mkQuestion 1 0 0).b| < 3 / 10 then |an.slopeAtIntercept| < 1
            else sign an.slopeAtIntercept = sign (mkQuestion 1 0 0).b) ∧
          |(an.xInterceptsCount : ℤ) - specExpectedRoots (mkQuestion 1 0 0)| ≤
            (if |specDelta (mkQuestion 1 0 0)| < 1 then 1 else 0))) ∧
      analyze strokeSquare = AnalyzeResult.ok ⟨1, 0, 0, 1⟩ ∧
      (checkDrawAnswer ⟨0, 0, 0⟩ (mkQuestion 1 0 0) strokeSquare).1 = ⟨10, 0, 0⟩ ∧
      (drawChecks (mkQuestion 1 0 0) ⟨1, 1 / 10, 1 / 20, 1⟩).isCorrect = true ∧
      (drawChecks (mkQuestion 1 0 0) ⟨-1, 1 / 10, 1 / 20, 1⟩).isCorrect = false :=
  ⟨C10_draw_verdict ⟨0, 0, 0⟩ (mkQuestion 1 0 0) strokeSquare (by decide),
    by decide!, by decide!, by decide!, by decide!⟩

/-! ## Drawing failure list and short strokes: properties -/

/-- The list `details` holds, in the order of the checks, one message for
each check that is false. -/
theorem details_eq (ch : DrawChecks) :
    ch.details =
      (if ch.concavityOk then [] else ["Concavità errata".toList]) ++
        (if ch.interceptOk then [] else ["Intercetta Y errata".toList]) ++
        (if ch.slopeOk then [] else ["Pendenza all\x27origine errata".toList]) ++
        (if ch.rootsOk then []
          else ["Intersezioni asse X errate (attese: ".toList ++
            numToString ch.expectedRoots ++ [')']]) := by
  obtain ⟨c1, c2, c3, c4, e⟩ := ch
  cases c1 <;> cases c2 <;> cases c3 <;> cases c4 <;> simp [DrawChecks.details]

/-- The four booleans of `drawChecks` decide the four checks of the
specification, and `expectedRoots` is the expected root count. -/
theorem drawChecks_fields (q : Question) (an : Analysis) :
    (drawChecks q an).concavityOk = decide (an.concavity = sign q.a) ∧
      (drawChecks q an).interceptOk = decide (|an.yIntercept - q.c| < 2) ∧
      (drawChecks q an).slopeOk =
        decide (if |q.b| < 3 / 10 then |an.slopeAtIntercept| < 1
          else sign an.slopeAtIntercept = sign q.b) ∧
      (drawChecks q an).rootsOk =
        decide (|(an.xInterceptsCount : ℤ) - specExpectedRoots q| ≤
          (if |specDelta q| < 1 then 1 else 0)) ∧
      (drawChecks q an).expectedRoots = specExpectedRoots q := by
  refine ⟨rfl, rfl, ?_, rfl, rfl⟩
  simp only [drawChecks]
  split_ifs <;> rfl

/-- Claim C11: the list built by `checkDrawAnswer` has exactly one labelled
message for each failing check and none for a passing check, in the order
concavity, y-intercept, slope, root count; it is empty iff the drawing is
accepted; and whenever the analysed concavity differs from `sign(a)` the
drawing is rejected and the list contains `Concavità errata`. On a rejected
stroke this list is the feedback shown. -/
theorem C11_draw_failure_list (q : Question) (an : Analysis) :
    (drawChecks q an).details =
        (if an.concavity = sign q.a then [] else ["Concavità errata".toList]) ++
          (if |an.yIntercept - q.c| < 2 then [] else ["Intercetta Y errata".toList]) ++
          (if (if |q.b| < 3 / 10 then |an.slopeAtIntercept| < 1
              else sign an.slopeAtIntercept = sign q.b) then []
            else ["Pendenza all\x27origine errata".toList]) ++
          (if |(an.xInterceptsCount : ℤ) - specExpectedRoots q| ≤
              (if |specDelta q| < 1 then 1 else 0) then []
            else ["Intersezioni asse X errate (attese: ".toList ++
              numToString (specExpectedRoots q) ++ [')']]) ∧
      ((drawChecks q an).details = [] ↔ (drawChecks q an).isCorrect = true) ∧
      (an.concavity ≠ sign q.a →
        (drawChecks q an).isCorrect = false ∧
          "Concavità errata".toList ∈ (drawChecks q an).details) ∧
      (∀ (st : Stats) (points : List Point), 10 ≤ points.length →
        analyze points = AnalyzeResult.ok an → (drawChecks q an).isCorrect = false →
        checkDrawAnswer st q points =
          (st, DrawOutcome.judged (drawChecks q an) ⟨false, (drawChecks q an).details⟩)) := by
  refine ⟨?_, ?_, ?_, ?_⟩
  · have hf := drawChecks_fields q an
    rw [details_eq, hf.1, hf.2.1, hf.2.2.1, hf.2.2.2.1, hf.2.2.2.2]
    simp only [decide_eq_true_eq]
  · rw [details_eq]
    generalize drawChecks q an = ch
    obtain ⟨c1, c2, c3, c4, e⟩ := ch
    cases c1 <;> cases c2 <;> cases c3 <;> cases c4 <;> simp [DrawChecks.isCorrect]
  · intro h
    have hc : (drawChecks q an).concavityOk = false := by
      simp [drawChecks, h]
    refine ⟨by simp [DrawChecks.isCorrect, hc], ?_⟩
    rw [details_eq, hc]
    simp
  · intro st points hlen han hc
    unfold checkDrawAnswer
    rw [if_neg (by omega), han]
    simp [hc]

/-- Claim C11 at the question `(1, 0, 0)` with analysed concavity `-1`: the
drawing is rejected and the failure list is exactly `Concavità errata`. -/
theorem C11_draw_failure_list_witness :
    ((drawChecks (mkQuestion 1 0 0) ⟨-1, 1 / 10, 1 / 20, 1⟩).isCorrect = false ∧
        "Concavità errata".toList ∈
          (drawChecks (mkQuestion 1 0 0) ⟨-1, 1 / 10, 1 / 20, 1⟩).details) ∧
      (drawChecks (mkQuestion 1 0 0) ⟨-1, 1 / 10, 1 / 20, 1⟩).details =
        ["Concavità errata".toList] ∧
      (drawChecks (mkQuestion 1 0 0) ⟨1, 1 / 10, 1 / 20, 1⟩).details = [] :=
  ⟨(C11_draw_failure_list (mkQuestion 1 0 0) ⟨-1, 1 / 10, 1 / 20, 1⟩).2.2.1 (by decide!),
    by decide!, by decide!⟩

/-- Claim C12 as stated fails: on a stroke of two points `analyze` returns a
feature record, not `null`. -/
theorem C12_short_stroke_counterexample :
    strokeShort.length < 10 ∧ analyze strokeShort = AnalyzeResult.ok ⟨-1, 0, 1, 1⟩ := by
  decide!

/-- Claim C12, amended: `analyze` returns `null` exactly for the strokes of
fewer than two points, and a feature record for every longer stroke; the
limit of ten points is the guard of `checkDrawAnswer`, which ignores a
shorter stroke without analysing or scoring it. -/
theorem C12_short_stroke (points : List Point) :
    (points.length < 2 → analyze points = AnalyzeResult.null) ∧
      (2 ≤ points.length → ∃ an, analyze points = AnalyzeResult.ok an) ∧
      (points.length < 10 →
        ∀ (st : Stats) (q : Question), checkDrawAnswer st q points = (st, DrawOutcome.ignored)) := by
  refine ⟨fun h => ?_, fun h => analyze_ok points h, fun h st q => ?_⟩
  · unfold analyze
    rw [if_pos h]
  · unfold checkDrawAnswer
    rw [if_pos h]

/-- Claim C12, amended, on concrete strokes: the empty stroke gives `null`,
the two-point stroke gives a record and is ignored by `checkDrawAnswer`. -/
theorem C12_short_stroke_witness :
    analyze [] = AnalyzeResult.null ∧
      (∃ an, analyze strokeShort = AnalyzeResult.ok an) ∧
      (∀ (st : Stats) (q : Question),
        checkDrawAnswer st q strokeShort = (st, DrawOutcome.ignored)) :=
  ⟨(C12_short_stroke []).1 (by decide), (C12_short_stroke strokeShort).2.1 (by decide),
    (C12_short_stroke strokeShort).2.2 (by decide)⟩

/-! ## Canonical string: properties -/

/-- The quadratic term of the canonical string contains the letter `x`. -/
theorem x_mem_specTermA (a : ℚ) : 'x' ∈ specTermA a := by
  unfold specTermA
  split_ifs <;> simp

/-- The linear part appended by `formatEquation` is the linear term of the
specification. -/
theorem linear_part_eq (b : ℚ) :
    (if 0 < b then " + ".toList ++ (if b = 1 then [] else numToString b) ++ ['x']
      else if b < 0 then " - ".toList ++ (if |b| = 1 then [] else numToString |b|) ++ ['x']
      else []) = specTermB b := by
  unfold specTermB
  rcases lt_trichotomy b 0 with hb | hb | hb
  · have h1 : ¬ 0 < b := not_lt.mpr hb.le
    have h2 : b ≠ 0 := hb.ne
    have h3 : b ≠ 1 := by intro h; rw [h] at hb; norm_num at hb
    have h4 : |b| = 1 ↔ b = -1 := by
      rw [abs_of_neg hb]
      constructor <;> intro h <;> linarith
    rw [if_neg h1, if_pos hb, if_neg h2, if_neg h3, if_neg h1]
    by_cases h5 : b = -1
    · rw [if_pos h5, if_pos (h4.mpr h5)]
      rfl
    · rw [if_neg h5, if_neg (fun h => h5 (h4.mp h))]
  · subst hb
    simp
  · have h1 : ¬ b < 0 := not_lt.mpr hb.le
    have h2 : b ≠ 0 := hb.ne'
    have h3 : b ≠ -1 := by intro h; rw [h] at hb; norm_num at hb
    rw [if_pos hb, if_neg h2, if_pos hb]
    by_cases h5 : b = 1
    · rw [if_pos h5, if_pos h5]
      rfl
    · rw [if_neg h5, if_neg h5, if_neg h3, abs_of_pos hb]

/-- The constant part appended by `formatEquation` is the constant term of
the specification. -/
theorem constant_part_eq (c : ℚ) :
    (if 0 < c then " + ".toList ++ numToString c
      else if c < 0 then " - ".toList ++ numToString |c| else []) = specTermC c := by
  unfold specTermC
  rcases lt_trichotomy c 0 with hc | hc | hc
  · rw [if_neg (not_lt.mpr hc.le), if_pos hc, if_neg hc.ne, if_neg (not_lt.mpr hc.le)]
  · subst hc
    simp
  · rw [if_pos hc, if_neg hc.ne', if_pos hc, abs_of_pos hc]

/-- The canonical string is the concatenation of the three terms of the
specification. -/
theorem formatEquation_terms (a b c : ℚ) :
    formatEquation a b c = specTermA a ++ specTermB b ++ specTermC c := by
  have hA := x_mem_specTermA a
  have hne : specTermA a ++ specTermB b ++ specTermC c ≠ [] := by
    intro h
    rw [List.append_eq_nil, List.append_eq_nil] at h
    rw [h.1.1] at hA
    cases hA
  have e2 : ∀ (A X Y : List Char) (p q : Prop) [Decidable p] [Decidable q],
      (if p then A ++ X else if q then A ++ Y else A) =
        A ++ (if p then X else if q then Y else []) := by
    intro A X Y p q _ _
    split_ifs <;> simp
  have hraw : formatEquation a b c =
      if specTermA a ++ specTermB b ++ specTermC c = [] then ['0']
      else specTermA a ++ specTermB b ++ specTermC c := by
    rw [← linear_part_eq b, ← constant_part_eq c]
    unfold formatEquation specTermA
    simp only [List.nil_append, e2]
  rw [hraw, if_neg hne]

/-- Claim C13: `formatEquation(a, b, c)` is the concatenation `A ++ B ++ C`
of the quadratic, linear and constant terms of the specification, for every
`a` (in particular for every `a ≠ 0`) and all `b`, `c`: a coefficient of
magnitude `1` is not printed and a zero linear or constant term is omitted. -/
theorem C13_canonical_layout (a b c : ℚ) :
    formatEquation a b c = specTermA a ++ specTermB b ++ specTermC c ∧
      formatEquation 1 (-1) 0 = "x² - x".toList ∧
      formatEquation (-1 / 2) 3 (-4) = "-0.5x² + 3x - 4".toList :=
  ⟨formatEquation_terms a b c, by decide!, by decide!⟩

/-- The canonical string always contains `x`, so it is never the text `0`;
with all coefficients zero it is `0x²`. -/
theorem formatEquation_ne_zero_text :
    formatEquation 0 0 0 = "0x²".toList ∧
      ∀ a b c : ℚ, formatEquation a b c ≠ ['0'] := by
  refine ⟨by decide!, fun a b c h => ?_⟩
  have hx : 'x' ∈ formatEquation a b c := by
    rw [formatEquation_terms]
    exact List.mem_append_left _ (List.mem_append_left _ (x_mem_specTermA a))
  rw [h] at hx
  simp at hx

/-! ## Stroke analysis: the features -/

/-- The scan keeps its invariant over the points from index `pre.length`. -/
theorem scanInv_foldl (points : List Point) :
    ∀ (l pre : List Point) (acc : Closest), points = pre ++ l →
      ScanInv points pre.length acc →
      ScanInv points points.length
        (List.foldl
          (fun (acc : Closest) (ip : ℕ × Point) =>
            if |ip.2.x| < acc.minDistX then (⟨|ip.2.x|, ip.2, ip.1⟩ : Closest) else acc)
          acc (List.enumFrom pre.length l)) := by
  intro l
  induction l with
  | nil =>
    intro pre acc hp hinv
    have : points.length = pre.length := by rw [hp]; simp
    rw [this]
    simpa using hinv
  | cons p t ih =>
    intro pre acc hp hinv
    simp only [List.enumFrom_cons, List.foldl_cons]
    have hp2 : points = (pre ++ [p]) ++ t := by rw [hp]; simp
    have hlen : (pre ++ [p]).length = pre.length + 1 := by simp
    have hget : points[pre.length]? = some p := by
      rw [hp, List.getElem?_append_right (le_refl _)]
      simp
    have := ih (pre ++ [p])
      (if |p.x| < acc.minDistX then (⟨|p.x|, p, pre.length⟩ : Closest) else acc) hp2
    rw [hlen] at this
    apply this
    obtain ⟨h1, h2, h3, h4⟩ := hinv
    split_ifs with hlt
    · refine ⟨hget, rfl, ?_, ?_⟩
      · intro i pi hi hpi
        show |p.x| ≤ |pi.x|
        rcases Nat.lt_succ_iff_lt_or_eq.mp hi with hi2 | hi2
        · exact le_trans hlt.le (h3 i pi hi2 hpi)
        · subst hi2
          rw [hget] at hpi
          cases hpi
          exact le_refl _
      · intro j pj hj hpj
        show |p.x| < |pj.x|
        exact lt_of_lt_of_le hlt (h3 j pj hj hpj)
    · refine ⟨h1, h2, ?_, h4⟩
      intro i pi hi hpi
      rcases Nat.lt_succ_iff_lt_or_eq.mp hi with hi2 | hi2
      · exact h3 i pi hi2 hpi
      · subst hi2
        rw [hget] at hpi
        cases hpi
        exact not_lt.mp hlt

/-- After the scan the recorded point is the earliest point of the stroke
whose `|x|` is minimal. -/
theorem closestScan_inv (p0 : Point) (points : List Point) (h0 : points[0]? = some p0) :
    ScanInv points points.length (closestScan p0 points) := by
  unfold closestScan List.enum
  have := scanInv_foldl points points [] ⟨|p0.x|, p0, 0⟩ rfl
  apply this
  refine ⟨h0, rfl, ?_, ?_⟩
  · intro i p hi; simp at hi
  · intro j p hj; simp at hj

/-- What `analyze` returns on a stroke of at least two points, in terms of
the points it reads: `p0`, `pl`, `pm` are the first, last and middle point,
`pk` at index `k` is the earliest point closest to the y-axis, `p1` and `p2`
are the points five samples before and after `k`, clamped to the stroke. -/
theorem analyze_spec (points : List Point) (h : 2 ≤ points.length) :
    ∃ (p0 pl pm pk p1 p2 : Point) (k : ℕ),
      points[0]? = some p0 ∧ points[points.length - 1]? = some pl ∧
      points[points.length / 2]? = some pm ∧
      points[k]? = some pk ∧
      (∀ (i : ℕ) (p : Point), points[i]? = some p → |pk.x| ≤ |p.x|) ∧
      (∀ (j : ℕ) (p : Point), j < k → points[j]? = some p → |pk.x| < |p.x|) ∧
      points[k - 5]? = some p1 ∧ points[min (k + 5) (points.length - 1)]? = some p2 ∧
      analyze points =
        AnalyzeResult.ok
          ⟨if pm.y < p0.y ∧ pm.y < pl.y then 1 else -1, pk.y,
            if p2.x ≠ p1.x then (p2.y - p1.y) / (p2.x - p1.x) else 0,
            countCrossings points⟩ := by
  have hpos : 0 < points.length := by omega
  have h0 : points[0]? = some points[0] := List.getElem?_eq_getElem hpos
  have hl : points[points.length - 1]? = some (points[points.length - 1]) :=
    List.getElem?_eq_getElem (by omega)
  have hm : points[points.length / 2]? = some (points[points.length / 2]) :=
    List.getElem?_eq_getElem (Nat.div_lt_self hpos (by norm_num))
  have hidx := closestScan_index_lt points[0] points hpos
  obtain ⟨i1, i2, i3, i4⟩ := closestScan_inv points[0] points h0
  have hk5 : points[(closestScan points[0] points).closestIndex - 5]? =
      some (points[(closestScan points[0] points).closestIndex - 5]) :=
    List.getElem?_eq_getElem (by omega)
  have hmin : min ((closestScan points[0] points).closestIndex + 5) (points.length - 1) <
      points.length := by
    have := Nat.min_le_right ((closestScan points[0] points).closestIndex + 5)
      (points.length - 1)
    omega
  have hk5b := List.getElem?_eq_getElem hmin
  have hp1 : (if 5 ≤ (closestScan points[0] points).closestIndex then
        points[(closestScan points[0] points).closestIndex - 5]? else some points[0]) =
      some (points[(closestScan points[0] points).closestIndex - 5]) := by
    by_cases hc : 5 ≤ (closestScan points[0] points).closestIndex
    · rw [if_pos hc]
      exact hk5
    · rw [if_neg hc]
      have : (closestScan points[0] points).closestIndex - 5 = 0 := by omega
      simp only [this]
  have hp2 : (if (closestScan points[0] points).closestIndex + 5 < points.length then
        points[(closestScan points[0] points).closestIndex + 5]?
      else some (points[points.length - 1])) =
      some (points[min ((closestScan points[0] points).closestIndex + 5)
        (points.length - 1)]) := by
    by_cases hc : (closestScan points[0] points).closestIndex + 5 < points.length
    · rw [if_pos hc]
      have : min ((closestScan points[0] points).closestIndex + 5) (points.length - 1) =
          (closestScan points[0] points).closestIndex + 5 := by
        apply Nat.min_eq_left; omega
      simp only [this]
      exact List.getElem?_eq_getElem hc
    · rw [if_neg hc]
      have : min ((closestScan points[0] points).closestIndex + 5) (points.length - 1) =
          points.length - 1 := by
        apply Nat.min_eq_right; omega
      simp only [this]
  refine ⟨points[0], points[points.length - 1], points[points.length / 2],
    (closestScan points[0] points).closestToYAxis,
    points[(closestScan points[0] points).closestIndex - 5],
    points[min ((closestScan points[0] points).closestIndex + 5) (points.length - 1)],
    (closestScan points[0] points).closestIndex, h0, hl, hm, i1, ?_, ?_, hk5, hk5b, ?_⟩
  · intro i p hp
    rw [← i2]
    have hi : i < points.length := by
      by_contra hcon
      rw [List.getElem?_eq_none (by omega)] at hp
      cases hp
    exact i3 i p hi hp
  · intro j p hj hp
    rw [← i2]
    exact i4 j p hj hp
  · unfold analyze
    rw [if_neg (by omega)]
    simp only [analyzeBody, h0, hl, hm, hp1, hp2, Option.bind_eq_bind, Option.some_bind,
      Option.pure_def, Bool.and_eq_true, decide_eq_true_eq]

/-- Index `0` never passes the crossing test. -/
theorem crossingAt_zero (l : List Point) : crossingAt l 0 = false := by
  unfold crossingAt
  cases h : l[0]? <;> simp [h]

/-- The crossing test at an index `i + 2` does not look at the first point. -/
theorem crossingAt_cons_succ (p : Point) (t : List Point) (i : ℕ) :
    crossingAt (p :: t) (i + 2) = crossingAt t (i + 1) := by
  unfold crossingAt
  simp

/-- The crossing test at index `1`. -/
theorem crossingAt_one (p q : Point) (r : List Point) :
    crossingAt (p :: q :: r) 1 = decide (sign q.y ≠ sign p.y ∧ q.y ≠ 0) := by
  unfold crossingAt
  simp

/-- The index count, with the index `0` (which never passes) left out. -/
theorem specCrossings_shift (l : List Point) :
    specCrossings l =
      (List.range (l.length - 1)).countP (fun i => crossingAt l (i + 1)) := by
  cases l with
  | nil => rfl
  | cons p t =>
    unfold specCrossings
    simp only [List.length_cons, Nat.add_sub_cancel]
    rw [List.range_succ_eq_map, List.countP_cons, crossingAt_zero, List.countP_map]
    simp [Function.comp_def]

/-- The index count of a stroke of at least two points: the test of the
first pair, plus the count of the stroke without its first point. -/
theorem specCrossings_cons_cons (p q : Point) (r : List Point) :
    specCrossings (p :: q :: r) =
      (if sign q.y ≠ sign p.y ∧ q.y ≠ 0 then 1 else 0) + specCrossings (q :: r) := by
  rw [specCrossings_shift, specCrossings_shift (q :: r)]
  simp only [List.length_cons, Nat.add_sub_cancel]
  rw [List.range_succ_eq_map, List.countP_cons, List.countP_map, crossingAt_one]
  simp only [Function.comp_def, Nat.succ_eq_add_one, crossingAt_cons_succ, zero_add]
  rw [add_comm]
  congr 1
  by_cases hc : sign q.y ≠ sign p.y ∧ q.y ≠ 0 <;> simp [hc]

/-- The loop of `analyze` counts the indices that pass the crossing test. -/
theorem countCrossings_eq_spec : ∀ l : List Point, countCrossings l = specCrossings l
  | [] => rfl
  | [_] => by
    rw [specCrossings_shift]
    rfl
  | p :: q :: r => by
    rw [countCrossings, specCrossings_cons_cons, countCrossings_eq_spec (q :: r)]

/-- A point on the axis put between two points on opposite sides of the axis
does not change the count of the loop. -/
theorem countCrossings_insert_zero (p q z : Point) (post : List Point) (hz : z.y = 0)
    (hpq : (p.y < 0 ∧ 0 < q.y) ∨ (q.y < 0 ∧ 0 < p.y)) :
    ∀ pre : List Point,
      countCrossings (pre ++ p :: z :: q :: post) = countCrossings (pre ++ p :: q :: post) := by
  have hbase : countCrossings (p :: z :: q :: post) = countCrossings (p :: q :: post) := by
    simp only [countCrossings, hz]
    have h1 : sign q.y ≠ sign 0 ∧ q.y ≠ 0 := by
      rcases hpq with ⟨_, h⟩ | ⟨h, _⟩
      · simp [sign, h, h.ne']
      · simp [sign, h, h.ne, not_lt.mpr h.le]
    have h2 : sign q.y ≠ sign p.y ∧ q.y ≠ 0 := by
      rcases hpq with ⟨hp, hq⟩ | ⟨hq, hp⟩
      · simp [sign, hp, hq, hq.ne', not_lt.mpr hp.le]
      · simp [sign, hp, hq, hq.ne, not_lt.mpr hq.le]
    simp [h1, h2]
  intro pre
  induction pre with
  | nil => exact hbase
  | cons a pre ih =>
    cases pre with
    | nil =>
      simp only [List.cons_append, List.nil_append, countCrossings] at ih ⊢
      rw [ih]
    | cons a2 pre2 =>
      simp only [List.cons_append, countCrossings] at ih ⊢
      show _ + countCrossings (a2 :: (pre2 ++ p :: z :: q :: post)) =
        _ + countCrossings (a2 :: (pre2 ++ p :: q :: post))
      rw [ih]

/-- The crossing test at an index whose two points are known. -/
theorem crossingAt_succ_of (l : List Point) (i : ℕ) (p q : Point) (h1 : l[i]? = some p)
    (h2 : l[i + 1]? = some q) :
    crossingAt l (i + 1) = decide (sign q.y ≠ sign p.y ∧ q.y ≠ 0) := by
  unfold crossingAt
  simp only [Nat.add_sub_cancel, h1, h2]
  simp

/-- The point right after a prefix. -/
theorem getElem?_after (pre : List Point) (a : Point) (t : List Point) :
    (pre ++ a :: t)[pre.length]? = some a := by
  rw [List.getElem?_append_right (le_refl _)]
  simp

/-- The second point after a prefix. -/
theorem getElem?_after_one (pre : List Point) (a b : Point) (t : List Point) :
    (pre ++ a :: b :: t)[pre.length + 1]? = some b := by
  rw [List.getElem?_append_right (by omega)]
  simp

/-- The third point after a prefix. -/
theorem getElem?_after_two (pre : List Point) (a b c : Point) (t : List Point) :
    (pre ++ a :: b :: c :: t)[pre.length + 2]? = some c := by
  rw [List.getElem?_append_right (by omega)]
  simp

/-- Claim C15: on a stroke of at least two points `xInterceptsCount` is the
number of indices `i ≥ 1` such that `sign(y[i])` differs from `sign(y[i-1])`
and `y[i]` is not `0`. Hence a point with `y = 0` inserted between two
consecutive points on strictly opposite sides of the axis leaves the count
unchanged: of the two new passages the first does not count and the second
does, as the original passage did. -/
theorem C15_crossing_count (points : List Point) (h : 2 ≤ points.length) :
    (∃ an, analyze points = AnalyzeResult.ok an ∧
        an.xInterceptsCount = specCrossings points) ∧
      (∀ (pre post : List Point) (p q z : Point), points = pre ++ p :: q :: post →
        z.y = 0 → ((p.y < 0 ∧ 0 < q.y) ∨ (q.y < 0 ∧ 0 < p.y)) →
        ∃ an an2, analyze points = AnalyzeResult.ok an ∧
          analyze (pre ++ p :: z :: q :: post) = AnalyzeResult.ok an2 ∧
          an2.xInterceptsCount = an.xInterceptsCount ∧
          crossingAt points (pre.length + 1) = true ∧
          crossingAt (pre ++ p :: z :: q :: post) (pre.length + 1) = false ∧
          crossingAt (pre ++ p :: z :: q :: post) (pre.length + 2) = true) := by
  obtain ⟨p0, pl, pm, pk, p1, p2, k, -, -, -, -, -, -, -, -, han⟩ := analyze_spec points h
  refine ⟨⟨_, han, countCrossings_eq_spec points⟩, ?_⟩
  intro pre post p q z hp hz hpq
  have hlen2 : 2 ≤ (pre ++ p :: z :: q :: post).length := by
    simp only [List.length_append, List.length_cons]
    omega
  obtain ⟨_, _, _, _, _, _, _, -, -, -, -, -, -, -, -, han2⟩ :=
    analyze_spec (pre ++ p :: z :: q :: post) hlen2
  have hq0 : q.y ≠ 0 := by
    rcases hpq with ⟨_, h⟩ | ⟨h, _⟩
    · exact h.ne'
    · exact h.ne
  have hs : sign q.y ≠ sign p.y := by
    rcases hpq with ⟨hp, hq⟩ | ⟨hq, hp⟩
    · simp [sign, hp, hq, not_lt.mpr hp.le]
    · simp [sign, hp, hq, not_lt.mpr hq.le]
  have hs0 : sign q.y ≠ 0 := by
    rcases hpq with ⟨_, h⟩ | ⟨h, _⟩
    · simp [sign, h]
    · simp [sign, h, not_lt.mpr h.le]
  refine ⟨_, _, han, han2, ?_, ?_, ?_, ?_⟩
  · show countCrossings _ = countCrossings _
    rw [hp]
    exact countCrossings_insert_zero p q z post hz hpq pre
  · rw [hp, crossingAt_succ_of _ _ p q (getElem?_after _ _ _) (getElem?_after_one _ _ _ _)]
    exact decide_eq_true ⟨hs, hq0⟩
  · rw [crossingAt_succ_of _ _ p z (getElem?_after _ _ _) (getElem?_after_one _ _ _ _)]
    exact decide_eq_false (fun hc => hc.2 hz)
  · rw [crossingAt_succ_of _ (pre.length + 1) z q (getElem?_after_one _ _ _ _)
      (getElem?_after_two _ _ _ _ _)]
    refine decide_eq_true ⟨?_, hq0⟩
    rw [hz]
    have : sign (0 : ℚ) = 0 := by simp [sign]
    rw [this]
    exact hs0

/-- Claim C16: on a stroke of at least two points `yIntercept` is the `y` of
the point at index `k`, the earliest index whose `|x|` is minimal over the
whole stroke. -/
theorem C16_y_intercept (points : List Point) (h : 2 ≤ points.length) :
    ∃ (an : Analysis) (k : ℕ) (pk : Point),
      analyze points = AnalyzeResult.ok an ∧ points[k]? = some pk ∧
        an.yIntercept = pk.y ∧
        (∀ (i : ℕ) (p : Point), points[i]? = some p → |pk.x| ≤ |p.x|) ∧
        (∀ (j : ℕ) (p : Point), j < k → points[j]? = some p → |pk.x| < |p.x|) := by
  obtain ⟨p0, pl, pm, pk, p1, p2, k, -, -, -, hk, hmin, hfirst, -, -, han⟩ :=
    analyze_spec points h
  exact ⟨_, k, pk, han, hk, rfl, hmin, hfirst⟩

/-- Claim C16 on the trace of `y = x²` from `x = -5` to `x = 5`: the point
closest to the y-axis is the sixth one, `(0, 0)`, and `yIntercept` is `0`. -/
theorem C16_y_intercept_witness :
    (∃ (an : Analysis) (k : ℕ) (pk : Point),
      analyze strokeSquare = AnalyzeResult.ok an ∧ strokeSquare[k]? = some pk ∧
        an.yIntercept = pk.y ∧
        (∀ (i : ℕ) (p : Point), strokeSquare[i]? = some p → |pk.x| ≤ |p.x|) ∧
        (∀ (j : ℕ) (p : Point), j < k → strokeSquare[j]? = some p → |pk.x| < |p.x|)) ∧
      analyze strokeSquare = AnalyzeResult.ok ⟨1, 0, 0, 1⟩ ∧
      strokeSquare[5]? = some ⟨0, 0⟩ :=
  ⟨C16_y_intercept strokeSquare (by decide), by decide!, by decide!⟩

/-- Claim C17: on a stroke of `n ≥ 2` points with intercept index `k` (the
earliest index of minimal `|x|`), `analyze` reads the in-bounds points
`p1 = points[max(k-5, 0)]` and `p2 = points[min(k+5, n-1)]` and returns the
slope `(p2.y - p1.y) / (p2.x - p1.x)` when `p2.x` differs from `p1.x`, and `0`
when they coincide: the division is only performed by a non-zero number. -/
theorem C17_slope_at_intercept (points : List Point) (h : 2 ≤ points.length) :
    ∃ (an : Analysis) (k : ℕ) (pk p1 p2 : Point),
      analyze points = AnalyzeResult.ok an ∧ points[k]? = some pk ∧
        (∀ (i : ℕ) (p : Point), points[i]? = some p → |pk.x| ≤ |p.x|) ∧
        (∀ (j : ℕ) (p : Point), j < k → points[j]? = some p → |pk.x| < |p.x|) ∧
        ((k - 5 : ℕ) : ℤ) = max ((k : ℤ) - 5) 0 ∧ k - 5 < points.length ∧
        min (k + 5) (points.length - 1) < points.length ∧
        points[k - 5]? = some p1 ∧ points[min (k + 5) (points.length - 1)]? = some p2 ∧
        an.slopeAtIntercept = (if p2.x ≠ p1.x then (p2.y - p1.y) / (p2.x - p1.x) else 0) ∧
        (p2.x ≠ p1.x → p2.x - p1.x ≠ 0) ∧ (p2.x = p1.x → an.slopeAtIntercept = 0) := by
  obtain ⟨p0, pl, pm, pk, p1, p2, k, -, -, -, hk, hmin, hfirst, h1, h2, han⟩ :=
    analyze_spec points h
  have hklt : k < points.length := (List.getElem?_eq_some.mp hk).1
  refine ⟨_, k, pk, p1, p2, han, hk, hmin, hfirst, by omega, by omega,
    (List.getElem?_eq_some.mp h2).1, h1, h2, rfl, fun hne => sub_ne_zero.mpr hne, ?_⟩
  intro heq
  show (if p2.x ≠ p1.x then (p2.y - p1.y) / (p2.x - p1.x) else 0) = 0
  rw [if_neg (not_not.mpr heq)]

/-- Claim C17 on the two-point stroke from the origin to `(1, 1)`: the
intercept index is `0`, both reads are clamped to the stroke, and the slope
is `1`. -/
theorem C17_slope_at_intercept_witness :
    (∃ (an : Analysis) (k : ℕ) (pk p1 p2 : Point),
      analyze strokeShort = AnalyzeResult.ok an ∧ strokeShort[k]? = some pk ∧
        (∀ (i : ℕ) (p : Point), strokeShort[i]? = some p → |pk.x| ≤ |p.x|) ∧
        (∀ (j : ℕ) (p : Point), j < k → strokeShort[j]? = some p → |pk.x| < |p.x|) ∧
        ((k - 5 : ℕ) : ℤ) = max ((k : ℤ) - 5) 0 ∧ k - 5 < strokeShort.length ∧
        min (k + 5) (strokeShort.length - 1) < strokeShort.length ∧
        strokeShort[k - 5]? = some p1 ∧
        strokeShort[min (k + 5) (strokeShort.length - 1)]? = some p2 ∧
        an.slopeAtIntercept = (if p2.x ≠ p1.x then (p2.y - p1.y) / (p2.x - p1.x) else 0) ∧
        (p2.x ≠ p1.x → p2.x - p1.x ≠ 0) ∧ (p2.x = p1.x → an.slopeAtIntercept = 0)) ∧
      analyze strokeShort = AnalyzeResult.ok ⟨-1, 0, 1, 1⟩ ∧
      analyze [⟨0, 0⟩, ⟨0, 1⟩] = AnalyzeResult.ok ⟨-1, 0, 0, 1⟩ :=
  ⟨C17_slope_at_intercept strokeShort (by decide), by decide!, by decide!⟩

/-- Claim C15 on the two-point stroke from `(-1, -1)` to `(1, 1)`: the count
is `1`, and it is still `1` with the origin inserted between the two
points. -/
theorem C15_crossing_count_witness :
    (∃ an, analyze strokeCross = AnalyzeResult.ok an ∧
        an.xInterceptsCount = specCrossings strokeCross) ∧
      specCrossings strokeCross = 1 ∧
      analyze strokeCross = AnalyzeResult.ok ⟨-1, -1, 1, 1⟩ ∧
      analyze [⟨-1, -1⟩, ⟨0, 0⟩, ⟨1, 1⟩] = AnalyzeResult.ok ⟨-1, 0, 1, 1⟩ :=
  ⟨(C15_crossing_count strokeCross (by decide)).1, by decide!, by decide!, by decide!⟩

/-- On a downward parabola a point strictly between two others lies strictly
above the lower of the two. -/
theorem parabola_mid_above (a b c x0 xm xl : ℚ) (ha : a < 0) (h1 : x0 < xm) (h2 : xm < xl) :
    min (a * x0 * x0 + b * x0 + c) (a * xl * xl + b * xl + c) <
      a * xm * xm + b * xm + c := by
  by_contra hcon
  rw [not_lt, le_min_iff] at hcon
  obtain ⟨hA, hB⟩ := hcon
  have hpos := mul_pos (mul_pos (sub_pos.2 h1) (sub_pos.2 h2)) (sub_pos.2 (h1.trans h2))
  have hneg := mul_neg_of_neg_of_pos ha hpos
  nlinarith [mul_nonneg (sub_nonneg.2 hA) (sub_pos.2 h2).le,
    mul_nonneg (sub_nonneg.2 hB) (sub_pos.2 h1).le]

/-- Claim C19: for `a < 0` and a stroke of at least three points lying on
`y = a*x*x + b*x + c` with strictly increasing or strictly decreasing `x`,
the midpoint at index `floor(n/2)` lies strictly above the lower of the two
endpoints, `analyze` returns concavity `-1`, and the concavity check of
`checkDrawAnswer` passes for a question with this `a`. -/
theorem C19_downward_trace (a b c : ℚ) (ha : a < 0) (points : List Point)
    (hn : 3 ≤ points.length)
    (hon : ∀ p ∈ points, p.y = a * p.x * p.x + b * p.x + c)
    (hmono : points.Pairwise (fun p q => p.x < q.x) ∨
      points.Pairwise (fun p q => q.x < p.x)) :
    ∃ (an : Analysis) (p0 pm pl : Point),
      analyze points = AnalyzeResult.ok an ∧ points[0]? = some p0 ∧
        points[points.length / 2]? = some pm ∧ points[points.length - 1]? = some pl ∧
        min p0.y pl.y < pm.y ∧ an.concavity = -1 ∧
        ∀ q : Question, q.a = a → (drawChecks q an).concavityOk = true := by
  obtain ⟨p0, pl, pm, pk, p1, p2, k, h0, hl, hm, -, -, -, -, -, han⟩ :=
    analyze_spec points (by omega)
  obtain ⟨i0, e0⟩ := List.getElem?_eq_some.mp h0
  obtain ⟨il, el⟩ := List.getElem?_eq_some.mp hl
  obtain ⟨im, em⟩ := List.getElem?_eq_some.mp hm
  have hlt1 : 0 < points.length / 2 := Nat.div_pos (by omega) (by norm_num)
  have hlt2 : points.length / 2 < points.length - 1 := by omega
  have hmid : min p0.y pl.y < pm.y := by
    rw [hon p0 (List.getElem?_mem h0), hon pl (List.getElem?_mem hl),
      hon pm (List.getElem?_mem hm)]
    rcases hmono with hinc | hdec
    · rw [List.pairwise_iff_getElem] at hinc
      have a1 := hinc 0 (points.length / 2) i0 im hlt1
      have a2 := hinc (points.length / 2) (points.length - 1) im il hlt2
      rw [e0, em] at a1
      rw [em, el] at a2
      exact parabola_mid_above a b c p0.x pm.x pl.x ha a1 a2
    · rw [List.pairwise_iff_getElem] at hdec
      have a1 := hdec 0 (points.length / 2) i0 im hlt1
      have a2 := hdec (points.length / 2) (points.length - 1) im il hlt2
      rw [e0, em] at a1
      rw [em, el] at a2
      rw [min_comm]
      exact parabola_mid_above a b c pl.x pm.x p0.x ha a2 a1
  have hnot : ¬ (pm.y < p0.y ∧ pm.y < pl.y) := by
    intro hc
    have := lt_min hc.1 hc.2
    exact lt_irrefl _ (this.trans hmid)
  have hconc : (if pm.y < p0.y ∧ pm.y < pl.y then (1 : ℤ) else -1) = -1 := if_neg hnot
  refine ⟨_, p0, pm, pl, han, h0, hm, hl, hmid, hconc, ?_⟩
  intro q hq
  have hs : sign q.a = -1 := by
    rw [hq]
    simp [sign, ha, not_lt.mpr ha.le]
  simp only [drawChecks, hconc, hs, decide_True]

/-- Claim C19 on the three-point trace of `y = -x²` from `x = -1` to `x = 1`:
the concavity is `-1` and the concavity check passes for `(-1, 0, 0)`. -/
theorem C19_downward_trace_witness :
    (∃ (an : Analysis) (p0 pm pl : Point),
      analyze strokeDown = AnalyzeResult.ok an ∧ strokeDown[0]? = some p0 ∧
        strokeDown[strokeDown.length / 2]? = some pm ∧
        strokeDown[strokeDown.length - 1]? = some pl ∧
        min p0.y pl.y < pm.y ∧ an.concavity = -1 ∧
        ∀ q : Question, q.a = -1 → (drawChecks q an).concavityOk = true) ∧
      analyze strokeDown = AnalyzeResult.ok ⟨-1, 0, 0, 1⟩ :=
  ⟨C19_downward_trace (-1) 0 0 (by norm_num) strokeDown (by decide) (by decide!)
    (Or.inl (by decide!)), by decide!⟩

/-! ## Root-count thresholds on generated questions -/

/-- For an integer `D` the thresholds `0.1`, `-0.1` and `1` of the root check
are the tests `D > 0`, `D < 0` and `D = 0`. -/
theorem int_thresholds (D : ℤ) :
    ((1 : ℚ) / 10 < (D : ℚ) ↔ 0 < D) ∧ ((D : ℚ) < -(1 / 10) ↔ D < 0) ∧
      (|(D : ℚ)| < 1 ↔ D = 0) := by
  refine ⟨⟨fun h => ?_, fun h => ?_⟩, ⟨fun h => ?_, fun h => ?_⟩, ?_⟩
  · by_contra hc
    have : (D : ℚ) ≤ 0 := by exact_mod_cast not_lt.mp hc
    linarith
  · have : (1 : ℚ) ≤ (D : ℚ) := by exact_mod_cast h
    linarith
  · by_contra hc
    have : (0 : ℚ) ≤ (D : ℚ) := by exact_mod_cast not_lt.mp hc
    linarith
  · have : (D : ℚ) ≤ -1 := by exact_mod_cast (show D ≤ -1 by omega)
    linarith
  · rw [← Int.cast_abs, show (1 : ℚ) = ((1 : ℤ) : ℚ) by norm_num, Int.cast_lt,
      Int.abs_lt_one_iff]

/-- On a generated question the discriminant is an integer. -/
theorem specDelta_int (a : ℚ) (b c : ℤ) (ha : a ∈ aValues) :
    ∃ D : ℤ, specDelta (mkQuestion a b c) = (D : ℚ) := by
  simp only [aValues, List.mem_cons, List.mem_singleton, List.not_mem_nil, or_false] at ha
  rcases ha with h | h | h | h | h | h <;> subst h
  · exact ⟨b * b + 8 * c, by simp only [specDelta, mkQuestion]; push_cast; ring⟩
  · exact ⟨b * b + 4 * c, by simp only [specDelta, mkQuestion]; push_cast; ring⟩
  · exact ⟨b * b + 2 * c, by simp only [specDelta, mkQuestion]; push_cast; ring⟩
  · exact ⟨b * b - 2 * c, by simp only [specDelta, mkQuestion]; push_cast; ring⟩
  · exact ⟨b * b - 4 * c, by simp only [specDelta, mkQuestion]; push_cast; ring⟩
  · exact ⟨b * b - 8 * c, by simp only [specDelta, mkQuestion]; push_cast; ring⟩

/-- The number of distinct real roots of a quadratic with `a ≠ 0`: `2` if the
discriminant is positive, `1` if it is zero, `0` if it is negative. -/
theorem real_root_count (a b c : ℝ) (ha : a ≠ 0) :
    {x : ℝ | a * (x * x) + b * x + c = 0}.ncard =
      if 0 < discrim a b c then 2 else if discrim a b c = 0 then 1 else 0 := by
  by_cases h1 : 0 < discrim a b c
  · rw [if_pos h1]
    have hs : discrim a b c = Real.sqrt (discrim a b c) * Real.sqrt (discrim a b c) :=
      (Real.mul_self_sqrt h1.le).symm
    have hset : {x : ℝ | a * (x * x) + b * x + c = 0} =
        {(-b + Real.sqrt (discrim a b c)) / (2 * a),
          (-b - Real.sqrt (discrim a b c)) / (2 * a)} := by
      ext x
      simp only [Set.mem_setOf_eq, Set.mem_insert_iff, Set.mem_singleton_iff]
      exact quadratic_eq_zero_iff ha hs x
    rw [hset]
    apply Set.ncard_pair
    intro heq
    have h2a : (2 * a) ≠ 0 := mul_ne_zero two_ne_zero ha
    have := (div_left_inj' h2a).mp heq
    have hsq : Real.sqrt (discrim a b c) = 0 := by linarith
    rw [Real.sqrt_eq_zero h1.le] at hsq
    exact h1.ne' hsq
  · rw [if_neg h1]
    by_cases h2 : discrim a b c = 0
    · rw [if_pos h2]
      have hset : {x : ℝ | a * (x * x) + b * x + c = 0} = {-b / (2 * a)} := by
        ext x
        simp only [Set.mem_setOf_eq, Set.mem_singleton_iff]
        exact quadratic_eq_zero_iff_of_discrim_eq_zero ha h2 x
      rw [hset, Set.ncard_singleton]
    · rw [if_neg h2]
      have hset : {x : ℝ | a * (x * x) + b * x + c = 0} = ∅ := by
        ext x
        simp only [Set.mem_setOf_eq, Set.mem_empty_iff_false, iff_false]
        apply quadratic_ne_zero_of_discrim_ne_sq
        intro s hs
        have : 0 ≤ discrim a b c := by rw [hs]; exact sq_nonneg s
        exact h1 (lt_of_le_of_ne this (Ne.symm h2))
      rw [hset, Set.ncard_empty]

/-- On a generated question the expected root count of `checkDrawAnswer` is
the number of distinct real roots of `a*x*x + b*x + c`. -/
theorem expectedRoots_eq_real_roots (a : ℚ) (b c : ℤ) (ha : a ∈ aValues) (an : Analysis) :
    (drawChecks (mkQuestion a b c) an).expectedRoots =
      ({x : ℝ | (a : ℝ) * (x * x) + (b : ℝ) * x + (c : ℝ) = 0}.ncard : ℤ) := by
  obtain ⟨D, hD⟩ := specDelta_int a b c ha
  obtain ⟨t1, t2, t3⟩ := int_thresholds D
  have hdis : discrim (a : ℝ) (b : ℝ) (c : ℝ) = (D : ℝ) := by
    have h := congrArg (fun r : ℚ => (r : ℝ)) hD
    simp only [specDelta, mkQuestion] at h
    push_cast at h
    rw [discrim]
    linarith
  have ha0 : (a : ℝ) ≠ 0 := by exact_mod_cast aValues_ne_zero ha
  have hexp : specExpectedRoots (mkQuestion a b c) =
      (if 0 < D then 2 else if D = 0 then 1 else 0) := by
    unfold specExpectedRoots
    rw [hD]
    by_cases h1 : 0 < D
    · rw [if_pos (t1.mpr h1), if_pos h1]
    · rw [if_neg (fun h => h1 (t1.mp h)), if_neg h1]
      by_cases h2 : D < 0
      · rw [if_pos (t2.mpr h2), if_neg (by omega)]
      · rw [if_neg (fun h => h2 (t2.mp h)), if_pos (by omega)]
  rw [real_root_count _ _ _ ha0, hdis, (drawChecks_fields _ an).2.2.2.2, hexp]
  simp only [Int.cast_pos, Int.cast_eq_zero]
  split_ifs <;> rfl

/-- Claim C20: for `a` in `-2, -1, -0.5, 0.5, 1, 2` and integers `b`, `c` (in
particular those between `-4` and `4`), `D = b*b - 4*a*c` is an integer, the
expected root count of `checkDrawAnswer` is `2` if `D > 0`, `1` if `D = 0`,
`0` if `D < 0`, which is the number of distinct real roots, the leniency of one applies only when `D = 0`, and the root
check passes iff `D > 0` and the count is `2`, or `D < 0` and the count is
`0`, or `D = 0` and the count is at most `2`. -/
theorem C20_root_thresholds (a : ℚ) (b c : ℤ) (ha : a ∈ aValues) (an : Analysis) :
    ∃ D : ℤ, (b : ℚ) * (b : ℚ) - 4 * a * (c : ℚ) = (D : ℚ) ∧
      (drawChecks (mkQuestion a b c) an).expectedRoots =
        (if 0 < D then 2 else if D = 0 then 1 else 0) ∧
      (drawChecks (mkQuestion a b c) an).expectedRoots =
        ({x : ℝ | (a : ℝ) * (x * x) + (b : ℝ) * x + (c : ℝ) = 0}.ncard : ℤ) ∧
      (|(b : ℚ) * (b : ℚ) - 4 * a * (c : ℚ)| < 1 ↔ D = 0) ∧
      ((drawChecks (mkQuestion a b c) an).rootsOk = true ↔
        (0 < D ∧ an.xInterceptsCount = 2) ∨ (D < 0 ∧ an.xInterceptsCount = 0) ∨
          (D = 0 ∧ an.xInterceptsCount ≤ 2)) := by
  obtain ⟨D, hD⟩ := specDelta_int a b c ha
  obtain ⟨t1, t2, t3⟩ := int_thresholds D
  have hD2 : (b : ℚ) * (b : ℚ) - 4 * a * (c : ℚ) = (D : ℚ) := hD
  have hf := drawChecks_fields (mkQuestion a b c) an
  have hexp : specExpectedRoots (mkQuestion a b c) =
      (if 0 < D then 2 else if D = 0 then 1 else 0) := by
    unfold specExpectedRoots
    rw [hD]
    by_cases h1 : 0 < D
    · rw [if_pos (t1.mpr h1), if_pos h1]
    · rw [if_neg (fun h => h1 (t1.mp h)), if_neg h1]
      by_cases h2 : D < 0
      · rw [if_pos (t2.mpr h2), if_neg (by omega)]
      · rw [if_neg (fun h => h2 (t2.mp h)), if_pos (by omega)]
  refine ⟨D, hD2, by rw [hf.2.2.2.2, hexp], expectedRoots_eq_real_roots a b c ha an,
    by rw [hD2]; exact t3, ?_⟩
  rw [hf.2.2.2.1, decide_eq_true_eq, hexp, hD]
  rcases lt_trichotomy D 0 with h | h | h
  · rw [if_neg (by omega), if_neg (by omega), if_neg (fun hc => by have := t3.mp hc; omega)]
    constructor
    · intro hc
      rw [sub_zero, abs_le] at hc
      right; left
      exact ⟨h, by omega⟩
    · rintro (⟨h1, -⟩ | ⟨-, h2⟩ | ⟨h1, -⟩)
      · omega
      · rw [h2]; simp
      · omega
  · subst h
    rw [if_neg (by omega), if_pos rfl, if_pos (t3.mpr rfl)]
    constructor
    · intro hc
      rw [abs_le] at hc
      right; right
      exact ⟨rfl, by omega⟩
    · rintro (⟨h1, -⟩ | ⟨h1, -⟩ | ⟨-, h2⟩)
      · omega
      · omega
      · rw [abs_le]
        constructor <;> omega
  · rw [if_pos h, if_neg (fun hc => by have := t3.mp hc; omega)]
    constructor
    · intro hc
      rw [abs_le] at hc
      left
      exact ⟨h, by omega⟩
    · rintro (⟨-, h2⟩ | ⟨h1, -⟩ | ⟨h1, -⟩)
      · rw [h2]; simp
      · omega
      · omega

/-- Claim C20 on the question `(0.5, 2, 2)`, whose discriminant is `0`: the
expected root count is `1` and the counts `0`, `1`, `2` pass, `3` does not. -/
theorem C20_root_thresholds_witness :
    (∃ D : ℤ, ((2 : ℤ) : ℚ) * ((2 : ℤ) : ℚ) - 4 * (1 / 2) * ((2 : ℤ) : ℚ) = (D : ℚ) ∧
      (drawChecks (mkQuestion (1 / 2) (2 : ℤ) (2 : ℤ)) ⟨1, 0, 0, 2⟩).expectedRoots =
        (if 0 < D then 2 else if D = 0 then 1 else 0) ∧
      (drawChecks (mkQuestion (1 / 2) (2 : ℤ) (2 : ℤ)) ⟨1, 0, 0, 2⟩).expectedRoots =
        ({x : ℝ | ((1 / 2 : ℚ) : ℝ) * (x * x) + ((2 : ℤ) : ℝ) * x + ((2 : ℤ) : ℝ) = 0}.ncard : ℤ) ∧
      (|((2 : ℤ) : ℚ) * ((2 : ℤ) : ℚ) - 4 * (1 / 2) * ((2 : ℤ) : ℚ)| < 1 ↔ D = 0) ∧
      ((drawChecks (mkQuestion (1 / 2) (2 : ℤ) (2 : ℤ)) ⟨1, 0, 0, 2⟩).rootsOk = true ↔
        (0 < D ∧ (⟨1, 0, 0, 2⟩ : Analysis).xInterceptsCount = 2) ∨
          (D < 0 ∧ (⟨1, 0, 0, 2⟩ : Analysis).xInterceptsCount = 0) ∨
          (D = 0 ∧ (⟨1, 0, 0, 2⟩ : Analysis).xInterceptsCount ≤ 2))) ∧
      (drawChecks (mkQuestion (1 / 2) 2 2) ⟨1, 0, 0, 2⟩).rootsOk = true ∧
      (drawChecks (mkQuestion (1 / 2) 2 2) ⟨1, 0, 0, 3⟩).rootsOk = false ∧
      (drawChecks (mkQuestion (1 / 2) 2 2) ⟨1, 0, 0, 2⟩).expectedRoots = 1 :=
  ⟨C20_root_thresholds (1 / 2) 2 2 (by decide!) ⟨1, 0, 0, 2⟩, by decide!, by decide!,
    by decide!⟩

/-! ## Multiple-choice rounds: exactly one right answer -/

/-- The swap of two elements keeps the length. -/
theorem swap_length {α : Type} (arr : List α) (i j : ℕ) :
    (swap arr i j).length = arr.length := by
  unfold swap
  split <;> simp

/-- The swap of two elements keeps the number of elements with a property. -/
theorem swap_countP {α : Type} (p : α → Bool) (arr : List α) (i j : ℕ) :
    (swap arr i j).countP p = arr.countP p := by
  unfold swap
  split
  · next x y hx hy =>
    obtain ⟨hi, ex⟩ := List.getElem?_eq_some.mp hx
    obtain ⟨hj, ey⟩ := List.getElem?_eq_some.mp hy
    have hj2 : j < (arr.set i y).length := by simpa using hj
    rw [List.countP_set p (arr.set i y) j x hj2, List.countP_set p arr i y hi, ex]
    have hget : (arr.set i y)[j] = y := by
      rw [List.getElem_set]
      split_ifs
      · rfl
      · exact ey
    rw [hget]
    have hle := List.boole_getElem_le_countP p arr i hi
    rw [ex] at hle
    generalize (if p x = true then 1 else 0 : ℕ) = A at hle ⊢
    generalize (if p y = true then 1 else 0 : ℕ) = B
    omega
  · rfl

/-- The loop of `shuffle` keeps the length and the number of elements with a
property. -/
theorem shuffleLoop_invariant {α : Type} (rand : ℕ → ℚ) (p : α → Bool) :
    ∀ (i k : ℕ) (arr : List α),
      (shuffleLoop rand i k arr).length = arr.length ∧
        (shuffleLoop rand i k arr).countP p = arr.countP p := by
  intro i
  induction i with
  | zero => intro k arr; exact ⟨rfl, rfl⟩
  | succ i ih =>
    intro k arr
    unfold shuffleLoop
    obtain ⟨h1, h2⟩ := ih (k + 1) (swap arr (i + 1) (⌊rand k * ((i + 2 : ℕ) : ℚ)⌋).toNat)
    exact ⟨h1.trans (swap_length _ _ _), h2.trans (swap_countP _ _ _ _)⟩

/-- `Utils.shuffle` returns a permutation of its input. -/
theorem shuffle_perm {α : Type} [DecidableEq α] (rand : ℕ → ℚ) (arr : List α) :
    (shuffle rand arr).Perm arr := by
  rw [List.perm_iff_count]
  intro a
  exact (shuffleLoop_invariant rand (fun x => x == a) _ _ arr).2

/-- A generated question is built from one of the six leading coefficients
and two integers between `-4` and `4`. -/
theorem generated_domain {q : Question} (h : Generated q) :
    ∃ a ∈ aValues, ∃ b ∈ intValues, ∃ c ∈ intValues, q = mkQuestion a (b : ℚ) (c : ℚ) := by
  obtain ⟨r1, r2, r3, h1, h2, h3, hg⟩ := h
  obtain ⟨-, a, hpick, ha⟩ := pickRandom_aValues h1.1 h1.2
  have hb := randomInt_bounds h2.1 h2.2
  have hc := randomInt_bounds h3.1 h3.2
  refine ⟨a, ha, randomInt (-4) 4 r2, mem_intValues hb.1 hb.2, randomInt (-4) 4 r3,
    mem_intValues hc.1 hc.2, ?_⟩
  simp only [generate, hpick, Option.map_some', Option.some.injEq] at hg
  exact hg.symm

/-- On the generator's domain the canonical string determines the
coefficients. -/
theorem generated_display_inj {d q : Question} (hd : Generated d) (hq : Generated q)
    (h : d.equationDisplay = q.equationDisplay) : d.a = q.a ∧ d.b = q.b ∧ d.c = q.c := by
  obtain ⟨a, ha, b, hb, c, hc, rfl⟩ := generated_domain hd
  obtain ⟨a2, ha2, b2, hb2, c2, hc2, rfl⟩ := generated_domain hq
  have e1 := parse_caret_finite a ha b hb c hc
  have e2 := parse_caret_finite a2 ha2 b2 hb2 c2 hc2
  have h2 : formatEquation a b c = formatEquation a2 b2 c2 := h
  rw [h2, e2] at e1
  simp only [Parsed.mk.injEq, JSNum.num.injEq] at e1
  exact ⟨e1.1.symm, e1.2.1.symm, e1.2.2.symm⟩

/-- The loop of `setupPickEqMode` keeps exactly one option with the text of
the target and ends with four options. -/
theorem pickEqLoop_invariant (q : Question) :
    ∀ (cands options res : List Question), pickEqLoop q cands options = some res →
      options.length ≤ 4 → options.countP (fun o => checkChoice o q) = 1 →
      res.length = 4 ∧ res.countP (fun o => checkChoice o q) = 1 := by
  intro cands
  induction cands with
  | nil =>
    intro options res h hlen hcnt
    unfold pickEqLoop at h
    split_ifs at h with hlt
    cases h
    exact ⟨by omega, hcnt⟩
  | cons d rest ih =>
    intro options res h hlen hcnt
    unfold pickEqLoop at h
    split_ifs at h with hlt hne
    · apply ih _ _ h
      · simp only [List.length_append, List.length_singleton]; omega
      · rw [List.countP_append, hcnt, List.countP_singleton]
        have : checkChoice d q = false := by
          unfold checkChoice
          exact decide_eq_false hne
        rw [this]
        rfl
    · exact ih _ _ h hlen hcnt
    · cases h
      exact ⟨by omega, hcnt⟩

/-- The loop of `setupPickPlotMode`, on generated candidates, keeps the
target among the options, exactly one option with its text, and ends with
four options. -/
theorem pickPlotLoop_invariant (q : Question) (hq : Generated q) :
    ∀ (cands options res : List Question), (∀ d ∈ cands, Generated d) →
      pickPlotLoop cands options = some res →
      options.length ≤ 4 → q ∈ options → options.countP (fun o => checkChoice o q) = 1 →
      res.length = 4 ∧ res.countP (fun o => checkChoice o q) = 1 := by
  intro cands
  induction cands with
  | nil =>
    intro options res _ h hlen _ hcnt
    unfold pickPlotLoop at h
    split_ifs at h with hlt
    cases h
    exact ⟨by omega, hcnt⟩
  | cons d rest ih =>
    intro options res hgen h hlen hmem hcnt
    have hgen2 : ∀ e ∈ rest, Generated e := fun e he => hgen e (List.mem_cons_of_mem _ he)
    unfold pickPlotLoop at h
    split_ifs at h with hlt hnew
    · apply ih _ _ hgen2 h
      · simp only [List.length_append, List.length_singleton]; omega
      · exact List.mem_append_left _ hmem
      · rw [List.countP_append, hcnt, List.countP_singleton]
        have : checkChoice d q = false := by
          unfold checkChoice
          apply decide_eq_false
          intro heq
          have hco := generated_display_inj (hgen d (List.mem_cons_self _ _)) hq heq
          simp only [Bool.not_eq_true', List.any_eq_false, decide_eq_true_eq] at hnew
          exact hnew q hmem ⟨hco.1.symm, hco.2.1.symm, hco.2.2.symm⟩
        rw [this]
        rfl
    · exact ih _ _ hgen2 h hlen hmem hcnt
    · cases h
      exact ⟨by omega, hcnt⟩

/-- Claim C18: for a generated target `q` and generated candidates on which
the distractor loop finishes, the shuffled option list of `setupPickPlotMode`
and of `setupPickEqMode` has four options, exactly one of which `checkChoice`
scores as correct against `q`. This rests on `shuffle` returning a
permutation and, for pick-plot, on the canonical string determining the
coefficients on the generator's domain. -/
theorem C18_exactly_one_right_answer (q : Question) (cands : List Question)
    (rand : ℕ → ℚ) (opts : List Question) (hq : Generated q)
    (hc : ∀ d ∈ cands, Generated d) :
    (setupPickPlotMode q cands rand = some opts →
        opts.length = 4 ∧ opts.countP (fun o => checkChoice o q) = 1) ∧
      (setupPickEqMode q cands rand = some opts →
        opts.length = 4 ∧ opts.countP (fun o => checkChoice o q) = 1) ∧
      (∀ l : List Question, (shuffle rand l).Perm l) ∧
      (∀ d : Question, Generated d → d.equationDisplay = q.equationDisplay →
        d.a = q.a ∧ d.b = q.b ∧ d.c = q.c) := by
  have hself : [q].countP (fun o => checkChoice o q) = 1 := by
    rw [List.countP_singleton]
    simp [checkChoice]
  refine ⟨fun h => ?_, fun h => ?_, fun l => shuffle_perm rand l,
    fun d hd he => generated_display_inj hd hq he⟩
  · unfold setupPickPlotMode at h
    rw [Option.map_eq_some'] at h
    obtain ⟨res, hres, rfl⟩ := h
    obtain ⟨h1, h2⟩ := pickPlotLoop_invariant q hq cands [q] res hc hres (by simp)
      (List.mem_singleton_self q) hself
    have hp := shuffle_perm rand res
    exact ⟨hp.length_eq.trans h1, (hp.countP_eq _).trans h2⟩
  · unfold setupPickEqMode at h
    rw [Option.map_eq_some'] at h
    obtain ⟨res, hres, rfl⟩ := h
    obtain ⟨h1, h2⟩ := pickEqLoop_invariant q cands [q] res hres (by simp) hself
    have hp := shuffle_perm rand res
    exact ⟨hp.length_eq.trans h1, (hp.countP_eq _).trans h2⟩

/-- The five example candidates are results of `generate`. -/
theorem candsExample_generated : ∀ d ∈ candsExample, Generated d := by
  intro d hd
  simp only [candsExample, List.mem_cons, List.mem_singleton, List.not_mem_nil,
    or_false] at hd
  rcases hd with rfl | rfl | rfl | rfl | rfl
  · exact ⟨9 / 10, 1 / 2, 1 / 2, by norm_num, by norm_num, by norm_num, by decide!⟩
  · exact ⟨9 / 10, 1 / 2, 1 / 2, by norm_num, by norm_num, by norm_num, by decide!⟩
  · exact ⟨1 / 5, 1 / 2, 1 / 2, by norm_num, by norm_num, by norm_num, by decide!⟩
  · exact ⟨7 / 10, 1 / 2, 1 / 2, by norm_num, by norm_num, by norm_num, by decide!⟩
  · exact ⟨7 / 10, 3 / 5, 1 / 2, by norm_num, by norm_num, by norm_num, by decide!⟩

/-- Claim C18 on the target `x²` with the candidates `2x²`, `2x²`, `-x²`,
`x²`, `x² + x`: pick-plot shows `2x²`, `-x²`, `x² + x`, `x²` and pick-eq shows
`2x²`, `2x²`, `-x²`, `x²`; in both the target is the only right answer. -/
theorem C18_exactly_one_right_answer_witness :
    ([mkQuestion 2 0 0, mkQuestion (-1) 0 0, mkQuestion 1 1 0, mkQuestion 1 0 0].length = 4 ∧
        [mkQuestion 2 0 0, mkQuestion (-1) 0 0, mkQuestion 1 1 0, mkQuestion 1 0 0].countP
          (fun o => checkChoice o (mkQuestion 1 0 0)) = 1) ∧
      ([mkQuestion 2 0 0, mkQuestion 2 0 0, mkQuestion (-1) 0 0, mkQuestion 1 0 0].length = 4 ∧
        [mkQuestion 2 0 0, mkQuestion 2 0 0, mkQuestion (-1) 0 0, mkQuestion 1 0 0].countP
          (fun o => checkChoice o (mkQuestion 1 0 0)) = 1) :=
  ⟨(C18_exactly_one_right_answer (mkQuestion 1 0 0) candsExample (fun _ => 0) _
      ⟨7 / 10, 1 / 2, 1 / 2, by norm_num, by norm_num, by norm_num, by decide!⟩
      candsExample_generated).1 (by decide!),
    (C18_exactly_one_right_answer (mkQuestion 1 0 0) candsExample (fun _ => 0) _
      ⟨7 / 10, 1 / 2, 1 / 2, by norm_num, by norm_num, by norm_num, by decide!⟩
      candsExample_generated).2.1 (by decide!)⟩

/-! ## Session statistics: properties -/

/-- `checkTypeAnswer` leaves `attempts` and `correct` as they were. -/
theorem checkTypeAnswer_frame (st : Stats) (input : List Char) (q : Question) :
    (checkTypeAnswer st input q).stats.attempts = st.attempts ∧
      (checkTypeAnswer st input q).stats.correct = st.correct := by
  unfold checkTypeAnswer
  simp only [showPoints]
  split_ifs <;> exact ⟨rfl, rfl⟩

/-- `checkDrawAnswer` leaves `attempts` and `correct` as they were. -/
theorem checkDrawAnswer_frame (st : Stats) (q : Question) (points : List Point) :
    (checkDrawAnswer st q points).1.attempts = st.attempts ∧
      (checkDrawAnswer st q points).1.correct = st.correct := by
  unfold checkDrawAnswer
  split_ifs
  · exact ⟨rfl, rfl⟩
  · split
    · simp only [showPoints]
      split_ifs <;> exact ⟨rfl, rfl⟩
    · exact ⟨rfl, rfl⟩

/-- One answer leaves `attempts` and `correct` as they were. -/
theorem stepAnswer_frame (st : Stats) (ans : Answer) :
    (stepAnswer st ans).attempts = st.attempts ∧ (stepAnswer st ans).correct = st.correct := by
  cases ans with
  | typed input q => exact checkTypeAnswer_frame st input q
  | drawn q points => exact checkDrawAnswer_frame st q points
  | chosen _ _ => exact ⟨rfl, rfl⟩
  | awarded points => exact ⟨rfl, rfl⟩

/-- A sequence of answers leaves `attempts` and `correct` as they were. -/
theorem runAnswers_frame (answers : List Answer) :
    ∀ st : Stats, (runAnswers st answers).attempts = st.attempts ∧
      (runAnswers st answers).correct = st.correct := by
  induction answers with
  | nil => intro st; exact ⟨rfl, rfl⟩
  | cons ans rest ih =>
    intro st
    have h1 := stepAnswer_frame st ans
    have h2 := ih (stepAnswer st ans)
    exact ⟨h2.1.trans h1.1, h2.2.trans h1.2⟩

/-- Claim C21: `showPoints`, `checkTypeAnswer` and `checkDrawAnswer` leave
`stats.attempts` and `stats.correct` unchanged, only `stats.totalScore` can
change; so along any sequence of scored answers `attempts` and `correct`
keep the values they had when the session was loaded or last reset (`0`
after a reset). -/
theorem C21_scoring_frame (st : Stats) :
    (∀ points : ℤ, showPoints st points = ⟨st.totalScore + points, st.attempts, st.correct⟩) ∧
      (∀ (input : List Char) (q : Question),
        (checkTypeAnswer st input q).stats.attempts = st.attempts ∧
          (checkTypeAnswer st input q).stats.correct = st.correct) ∧
      (∀ (q : Question) (points : List Point),
        (checkDrawAnswer st q points).1.attempts = st.attempts ∧
          (checkDrawAnswer st q points).1.correct = st.correct) ∧
      (∀ answers : List Answer,
        (runAnswers st answers).attempts = st.attempts ∧
          (runAnswers st answers).correct = st.correct) ∧
      (∀ (stored : Option Stats) (answers : List Answer),
        (runAnswers (loadStats stored) answers).attempts = (loadStats stored).attempts ∧
          (runAnswers (loadStats stored) answers).correct = (loadStats stored).correct) ∧
      (∀ answers : List Answer,
        (runAnswers resetStats answers).attempts = 0 ∧
          (runAnswers resetStats answers).correct = 0) ∧
      runAnswers ⟨5, 3, 2⟩
          [Answer.typed "x^2 + 2x - 1".toList (mkQuestion 1 2 (-1)),
            Answer.drawn (mkQuestion 1 0 0) strokeSquare,
            Answer.typed "x^2 - 2x - 1".toList (mkQuestion 1 2 (-1)),
            Answer.chosen (mkQuestion 1 0 0) (mkQuestion 1 0 0)] =
        ⟨31, 3, 2⟩ :=
  ⟨fun _ => rfl, checkTypeAnswer_frame st, checkDrawAnswer_frame st,
    fun answers => runAnswers_frame answers st,
    fun stored answers => runAnswers_frame answers (loadStats stored),
    fun answers => runAnswers_frame answers resetStats, by decide!⟩

/-! ## Canonical string: the degenerate text -/

/-- Claim C14: on every input `formatEquation` receives (`generate` passes a
non-zero `a`), the result is `0` if and only if `a = 0`, `b = 0` and `c = 0`:
no term vanishes altogether, the quadratic term is always printed, and the
result is never `0`. In particular the text of a generated question is never
`0`. -/
theorem C14_zero_iff_all_vanish (a b c : ℚ) (ha : a ≠ 0) :
    (formatEquation a b c = ['0'] ↔ a = 0 ∧ b = 0 ∧ c = 0) ∧
      formatEquation a b c ≠ ['0'] ∧
      (∀ q : Question, Generated q → q.a ≠ 0 ∧ q.equationDisplay ≠ ['0']) := by
  have hne := formatEquation_ne_zero_text.2
  refine ⟨⟨fun h => absurd h (hne a b c), fun h => absurd h.1 ha⟩, hne a b c, ?_⟩
  intro q hq
  obtain ⟨a2, ha2, b2, -, c2, -, rfl⟩ := generated_domain hq
  exact ⟨aValues_ne_zero ha2, hne _ _ _⟩

/-- Claim C14 on the coefficients `(1, 0, 0)` and `(-0.5, 0, 0)`: the texts
are `x²` and `-0.5x²`, not `0`. -/
theorem C14_zero_iff_all_vanish_witness :
    ((formatEquation 1 0 0 = ['0'] ↔ (1 : ℚ) = 0 ∧ (0 : ℚ) = 0 ∧ (0 : ℚ) = 0) ∧
        formatEquation 1 0 0 ≠ ['0']) ∧
      formatEquation 1 0 0 = "x²".toList ∧
      formatEquation (-1 / 2) 0 0 = "-0.5x²".toList :=
  ⟨⟨(C14_zero_iff_all_vanish 1 0 0 (by norm_num)).1,
      (C14_zero_iff_all_vanish 1 0 0 (by norm_num)).2.1⟩, by decide!, by decide!⟩

end ParabolaWhat
